import Mathlib

/-!
LED pattern controller (`src/main.c`): embedding and verified properties.

The program drives 8 LEDs in one of two patterns and polls one push button
(active low, pull-up) to toggle between them.  The C functions are embedded
as state-passing Lean functions over an explicit machine state:

* simulated time is a natural number of milliseconds;
* the button pin is a function from instants to levels (`true` = high = idle,
  `false` = low = pressed);
* every side effect (GPIO write, `MXC_Delay`, read of the input register,
  write of `mode`) is appended to a chronological log;
* the busy-wait `while (!(BUTTON_PORT->in & BUTTON_MASK));` is bounded by a
  fuel argument; running out of fuel is reported as `Fault.spinning`;
* an out-of-range index into `led_cfgs` is reported as `Fault.index`.
-/

namespace LedActivity

/-! ## Data model -/

/-- Number of entries of `led_cfgs` (`#define NUM_LEDS 8`). -/
def NUM_LEDS : Nat := 8

/-- Level of the button pin at each instant (milliseconds): `true` is logic
high (idle, pulled up), `false` is logic low (button pressed, asserted). -/
abbrev Wire := Nat → Bool

/-- On/off state of the 8 output lines. -/
abbrev Leds := Fin 8 → Bool

/-- Side effects of the program, in the order they are logged. -/
inductive Event
  /-- `MXC_GPIO_OutSet` on entry `i` of `led_cfgs`. -/
  | outSet (i : Fin 8)
  /-- `MXC_GPIO_OutClr` on entry `i` of `led_cfgs`. -/
  | outClr (i : Fin 8)
  /-- `MXC_Delay(MXC_DELAY_MSEC(ms))`. -/
  | delay (ms : Nat)
  /-- Entry into `button_pressed`. -/
  | poll
  /-- One read of `BUTTON_PORT->in & BUTTON_MASK`; `high` is the level read. -/
  | read (high : Bool)
  /-- One pass of the empty busy-wait loop body (one millisecond elapses). -/
  | spin
  /-- The assignment `mode ^= 1`. -/
  | toggle
  deriving DecidableEq, Repr

/-- Ways in which a call does not return normally. -/
inductive Fault
  /-- The busy-wait loop used up its fuel with the input still low. -/
  | spinning
  /-- An index outside `0 .. NUM_LEDS-1` was used on `led_cfgs`. -/
  | index
  deriving DecidableEq, Repr

/-- Machine state: clock, the global `mode`, the output lines, the two
function-local statics of `pattern_larson`, and the log of side effects. -/
structure State where
  /-- Simulated time in milliseconds. -/
  now : Nat
  /-- The global `int mode`. -/
  mode : Int
  /-- Output lines. -/
  leds : Leds
  /-- The local `static int pos` of `pattern_larson`. -/
  pos : Int
  /-- The local `static int dir` of `pattern_larson`. -/
  dir : Int
  /-- Chronological log of side effects. -/
  log : List Event

/-- Append one event to the log. -/
def emit (e : Event) (s : State) : State :=
  { s with log := s.log ++ [e] }

/-! ## Hardware abstraction layer -/

/-- Modelled from the spec: `MXC_Delay(MXC_DELAY_MSEC(ms))` from the absent
header `mxc_delay.h`, the blocking sleep for `ms` milliseconds. -/
def MXC_Delay_MSEC (ms : Nat) (s : State) : State :=
  { s with now := s.now + ms, log := s.log ++ [Event.delay ms] }

/-- Modelled from the spec: `MXC_GPIO_OutSet` from the absent header `gpio.h`,
applied to entry `i` of `led_cfgs`: the line is switched on. -/
def MXC_GPIO_OutSet (i : Fin 8) (s : State) : State :=
  { s with leds := Function.update s.leds i true, log := s.log ++ [Event.outSet i] }

/-- Modelled from the spec: `MXC_GPIO_OutClr` from the absent header `gpio.h`,
applied to entry `i` of `led_cfgs`: the line is switched off. -/
def MXC_GPIO_OutClr (i : Fin 8) (s : State) : State :=
  { s with leds := Function.update s.leds i false, log := s.log ++ [Event.outClr i] }

/-- Subscript `led_cfgs[index]` with a C `int`: defined only inside the table. -/
def led_cfgs (index : Int) : Except Fault (Fin 8) :=
  if h : 0 ≤ index ∧ index < 8 then
    .ok ⟨index.toNat, by omega⟩
  else
    .error Fault.index

/-- Value of `BUTTON_PORT->in & BUTTON_MASK` (as a truth value) at the current
instant, with the read logged. -/
def read_button (w : Wire) (s : State) : Bool × State :=
  (w s.now, emit (Event.read (w s.now)) s)

/-! ## LED helpers -/

/-- The loop of `leds_off` from index `i`, with `n` iterations left. -/
def leds_off_loop : Nat → Nat → State → State
  | 0, _, s => s
  | n + 1, i, s =>
    if h : i < 8 then leds_off_loop n (i + 1) (MXC_GPIO_OutClr ⟨i, h⟩ s) else s

/-- `void leds_off(void)`: clears `led_cfgs[0 .. NUM_LEDS-1]`. -/
def leds_off (s : State) : State :=
  leds_off_loop NUM_LEDS 0 s

/-- `void led_on(int index)`. -/
def led_on (index : Int) (s : State) : Except Fault State :=
  match led_cfgs index with
  | .ok i => .ok (MXC_GPIO_OutSet i s)
  | .error e => .error e

/-- `void led_off(int index)`. -/
def led_off (index : Int) (s : State) : Except Fault State :=
  match led_cfgs index with
  | .ok i => .ok (MXC_GPIO_OutClr i s)
  | .error e => .error e

/-! ## Button -/

/-- The loop `while (!(BUTTON_PORT->in & BUTTON_MASK));`: the input is read at
the current instant; while it reads low the clock moves on by one millisecond
and the read is repeated.  `fuel` bounds the number of passes. -/
def wait_release (w : Wire) : Nat → State → Except Fault State
  | 0, s =>
    if !(read_button w s).1 then .error Fault.spinning else .ok (read_button w s).2
  | fuel + 1, s =>
    if !(read_button w s).1 then
      wait_release w fuel
        { (read_button w s).2 with
          now := s.now + 1, log := (read_button w s).2.log ++ [Event.spin] }
    else .ok (read_button w s).2

/-- `int button_pressed(void)`. -/
def button_pressed (w : Wire) (fuel : Nat) (s : State) : Except Fault (Int × State) :=
  let s0 := emit Event.poll s
  let r1 := read_button w s0
  if !r1.1 then
    let r2 := read_button w (MXC_Delay_MSEC 30 r1.2)
    if !r2.1 then
      match wait_release w fuel r2.2 with
      | .ok s3 => .ok (1, MXC_Delay_MSEC 30 s3)
      | .error e => .error e
    else .ok (0, r2.2)
  else .ok (0, r1.2)

/-! ## Responsive delay -/

/-- The statement `mode ^= 1;`. -/
def toggle_mode (s : State) : State :=
  { s with mode := Int.xor s.mode 1, log := s.log ++ [Event.toggle] }

/-- The `for (int i = 0; i < chunks; i++)` loop of `delay_with_button_check`
with `n` iterations left.  The first component of the result is `1` when the
loop was left through `return 1`, and `0` when it ran to completion. -/
def delay_loop (w : Wire) (fuel : Nat) : Nat → State → Except Fault (Int × State)
  | 0, s => .ok (0, s)
  | n + 1, s =>
    match button_pressed w fuel (MXC_Delay_MSEC 50 s) with
    | .error e => .error e
    | .ok (b, s1) =>
      if b ≠ 0 then
        .ok (1, MXC_Delay_MSEC 200 (leds_off (toggle_mode s1)))
      else delay_loop w fuel n s1

/-- `int delay_with_button_check(int total_ms)`. -/
def delay_with_button_check (w : Wire) (fuel : Nat) (total_ms : Int) (s : State) :
    Except Fault (Int × State) :=
  let chunks := Int.tdiv total_ms 50
  let remainder := Int.tmod total_ms 50
  match delay_loop w fuel chunks.toNat s with
  | .error e => .error e
  | .ok (r, s1) =>
    if r ≠ 0 then .ok (1, s1)
    else if remainder > 0 then .ok (0, MXC_Delay_MSEC remainder.toNat s1)
    else .ok (0, s1)

/-! ## Patterns -/

/-- A loop `for (int i = i0; ...; i++) body(i)` with `n` iterations left. -/
def for_loop (body : Int → State → Except Fault State) : Nat → Int → State → Except Fault State
  | 0, _, s => .ok s
  | n + 1, i, s =>
    match body i s with
    | .ok s1 => for_loop body n (i + 1) s1
    | .error e => .error e

/-- First loop of `pattern_odd_even` ("Phase 1: Even indices"). -/
def phase_even (s : State) : Except Fault State :=
  for_loop (fun i s => if Int.tmod i 2 = 0 then led_on i s else led_off i s) NUM_LEDS 0 s

/-- Second loop of `pattern_odd_even` ("Phase 2: Odd indices"). -/
def phase_odd (s : State) : Except Fault State :=
  for_loop (fun i s => if Int.tmod i 2 = 1 then led_on i s else led_off i s) NUM_LEDS 0 s

/-- `void pattern_odd_even(void)`. -/
def pattern_odd_even (w : Wire) (fuel : Nat) (s : State) : Except Fault State :=
  match phase_even s with
  | .error e => .error e
  | .ok s1 =>
    match delay_with_button_check w fuel 400 s1 with
    | .error e => .error e
    | .ok (r, s2) =>
      if r ≠ 0 then .ok s2
      else
        match phase_odd s2 with
        | .error e => .error e
        | .ok s3 =>
          match delay_with_button_check w fuel 400 s3 with
          | .error e => .error e
          | .ok (_, s4) => .ok s4

/-- The rendering part of `pattern_larson`: `leds_off(); led_on(pos);`. -/
def larson_frame (s : State) : Except Fault State :=
  led_on s.pos (leds_off s)

/-- The tail of `pattern_larson` after an uninterrupted hold:
`pos += dir; if (pos == NUM_LEDS - 1) dir = -1; if (pos == 0) dir = 1;`. -/
def larson_advance (s : State) : State :=
  let pos := s.pos + s.dir
  let dir1 := if pos = (NUM_LEDS : Int) - 1 then -1 else s.dir
  let dir2 := if pos = 0 then 1 else dir1
  { s with pos := pos, dir := dir2 }

/-- `void pattern_larson(void)`. -/
def pattern_larson (w : Wire) (fuel : Nat) (s : State) : Except Fault State :=
  match larson_frame s with
  | .error e => .error e
  | .ok s1 =>
    match delay_with_button_check w fuel 120 s1 with
    | .error e => .error e
    | .ok (r, s2) => if r ≠ 0 then .ok s2 else .ok (larson_advance s2)

/-! ## Controller loop -/

/-- `void setup_leds(void)`: every line is configured and cleared. -/
def setup_leds (s : State) : State :=
  leds_off_loop NUM_LEDS 0 s

/-- `void init_button(void)`: configures the button pin as an input with
pull-up; no effect on the state modelled here. -/
def init_button (s : State) : State := s

/-- State of the machine when `main` is entered: clock at `0`, the initialised
globals and statics (`mode = 0`, `pos = 0`, `dir = 1`), lines at `leds`. -/
def boot (leds : Leds) : State :=
  { now := 0, mode := 0, leds := leds, pos := 0, dir := 1, log := [] }

/-- State on entry to the `while (1)` loop of `main`. -/
def main_init (leds : Leds) : State :=
  init_button (setup_leds (boot leds))

/-- One iteration of the `while (1)` loop of `main`. -/
def main_tick (w : Wire) (fuel : Nat) (s : State) : Except Fault State :=
  if s.mode = 0 then pattern_odd_even w fuel s else pattern_larson w fuel s

/-- `n` consecutive calls of a procedure, stopping at the first fault. -/
def run_times (f : State → Except Fault State) : Nat → State → Except Fault State
  | 0, s => .ok s
  | n + 1, s =>
    match f s with
    | .ok s1 => run_times f n s1
    | .error e => .error e

/-- The first `n` iterations of the `while (1)` loop of `main`. -/
def main_loop (w : Wire) (fuel : Nat) (n : Nat) (s : State) : Except Fault State :=
  run_times (main_tick w fuel) n s

/-! ## Observations on runs -/

/-- Log of `n` slices in which the poll reads the input high at once. -/
def quiet_slices : Nat → List Event
  | 0 => []
  | n + 1 => Event.delay 50 :: Event.poll :: Event.read true :: quiet_slices n

/-- Events that only read the input or let time pass. -/
def Event.is_input : Event → Bool
  | Event.delay _ => true
  | Event.poll => true
  | Event.read _ => true
  | Event.spin => true
  | _ => false

/-- Number of executions of `mode ^= 1` recorded in a log. -/
def toggles (log : List Event) : Nat :=
  log.count Event.toggle

/-- Log of a busy-wait that sees the input low `d` times and then high. -/
def spin_log : Nat → List Event
  | 0 => [Event.read true]
  | d + 1 => Event.read false :: Event.spin :: spin_log d

/-- The state `s'` differs from `s` only by time having passed and by logged
input activity: no output line, no `mode`, no scanner static was written. -/
structure InputStep (s s' : State) : Prop where
  mode_eq : s'.mode = s.mode
  leds_eq : s'.leds = s.leds
  pos_eq : s'.pos = s.pos
  dir_eq : s'.dir = s.dir
  now_le : s.now ≤ s'.now
  log_ext : ∃ evs, s'.log = s.log ++ evs ∧ ∀ e ∈ evs, e.is_input = true

/-- The input is never stuck low: after every instant it reads high again. -/
def Releasing (w : Wire) : Prop :=
  ∀ t, ∃ t', t ≤ t' ∧ w t' = true

/-- Log of one execution of `leds_off`. -/
def all_clear_log : List Event :=
  [Event.outClr 0, Event.outClr 1, Event.outClr 2, Event.outClr 3,
   Event.outClr 4, Event.outClr 5, Event.outClr 6, Event.outClr 7]

/-- The activation branch of `delay_with_button_check`:
`mode ^= 1; leds_off(); MXC_Delay(MXC_DELAY_MSEC(200));`. -/
def acknowledged (s : State) : State :=
  MXC_Delay_MSEC 200 (leds_off (toggle_mode s))

/-- Outcome of a call that returned `r` in state `s'` from state `s`: either
nothing but input activity happened and `r = 0`, or after some input activity
the activation branch ran once and `r = 1`. -/
def Outcome (s : State) (r : Int) (s' : State) : Prop :=
  (r = 0 ∧ InputStep s s') ∨ (r = 1 ∧ ∃ m, InputStep s m ∧ s' = acknowledged m)

/-- What a caller observes of a call of `delay_with_button_check` or of
`button_pressed`: the value returned, the clock on return and the number of
polls logged. -/
def observe (r : Except Fault (Int × State)) : Option (Int × Nat × Nat) :=
  match r with
  | .ok (b, s) => some (b, s.now, s.log.count Event.poll)
  | .error _ => none

/-- Frame A of `pattern_odd_even`: even lines on, odd lines off. -/
def frame_even : Leds := fun i => decide (i.val % 2 = 0)

/-- Frame B of `pattern_odd_even`: odd lines on, even lines off. -/
def frame_odd : Leds := fun i => decide (i.val % 2 = 1)

/-- Frame of `pattern_larson` at position `p`: line `p` on, every other line off. -/
def one_hot (p : Int) : Leds := fun i => decide ((i.val : Int) = p)

/-- GPIO writes of the first loop of `pattern_odd_even`. -/
def even_writes : List Event :=
  [Event.outSet 0, Event.outClr 1, Event.outSet 2, Event.outClr 3,
   Event.outSet 4, Event.outClr 5, Event.outSet 6, Event.outClr 7]

/-- GPIO writes of the second loop of `pattern_odd_even`. -/
def odd_writes : List Event :=
  [Event.outClr 0, Event.outSet 1, Event.outClr 2, Event.outSet 3,
   Event.outClr 4, Event.outSet 5, Event.outClr 6, Event.outSet 7]

/-- What an observer of the LEDs sees while a log is played from LED state
`cur`, already displayed for `held` ms: the successive LED states that stood
for a positive time, each with the time it stood.  Time passes in `delay` and
`spin` events; a state is closed by the first GPIO write after it. -/
def timeline_from (cur : Leds) (held : Nat) : List Event → List (Leds × Nat)
  | [] => if held = 0 then [] else [(cur, held)]
  | Event.delay ms :: es => timeline_from cur (held + ms) es
  | Event.spin :: es => timeline_from cur (held + 1) es
  | Event.outSet i :: es =>
    (if held = 0 then [] else [(cur, held)]) ++ timeline_from (Function.update cur i true) 0 es
  | Event.outClr i :: es =>
    (if held = 0 then [] else [(cur, held)]) ++ timeline_from (Function.update cur i false) 0 es
  | Event.poll :: es => timeline_from cur held es
  | Event.read _ :: es => timeline_from cur held es
  | Event.toggle :: es => timeline_from cur held es

/-- Frames shown by a log played from LED state `leds`. -/
def timeline (leds : Leds) (evs : List Event) : List (Leds × Nat) :=
  timeline_from leds 0 evs

/-- Log of the remainder sleep of `delay_with_button_check`. -/
def remainder_log (total_ms : Nat) : List Event :=
  if total_ms % 50 = 0 then [] else [Event.delay (total_ms % 50)]

/-- Log of one uninterrupted invocation of `pattern_larson` lighting line `i`. -/
def larson_log (i : Fin 8) : List Event :=
  all_clear_log ++ [Event.outSet i] ++ quiet_slices 2 ++ [Event.delay 20]

/-- A wire that is low exactly at the instants `a ≤ t < b`. -/
def pressed_between (a b : Nat) : Wire := fun t => !(decide (a ≤ t) && decide (t < b))

/-- A press: the pin is low from instant 40 up to instant 99 and high otherwise. -/
def press_40_100 : Wire := pressed_between 40 100

/-- The button is never pressed: the pin reads high at every instant. -/
def idle : Wire := fun _ => true

/-- All eight lines off. -/
def all_off : Leds := fun _ => false

/-- The state a call returned in, or `d` when it did not return. -/
def final_state (r : Except Fault (Int × State)) (d : State) : State :=
  match r with
  | .ok (_, s) => s
  | .error _ => d

/-- The state a procedure returned in, or `d` when it did not return. -/
def end_state (r : Except Fault State) (d : State) : State :=
  match r with
  | .ok s => s
  | .error _ => d

/-- States the controller loop can be in at the top of an iteration. -/
inductive Reachable (w : Wire) : State → Prop
  | init (leds : Leds) : Reachable w (main_init leds)
  | tick (fuel : Nat) (s s' : State) :
      Reachable w s → main_tick w fuel s = .ok s' → Reachable w s'

/-- Effect of a call on the selector: either `mode` is untouched and no toggle
was logged, or `mode` was toggled exactly once. -/
def ModeStep (s s' : State) : Prop :=
  (s'.mode = s.mode ∧ toggles s'.log = toggles s.log)
    ∨ (s'.mode = Int.xor s.mode 1 ∧ toggles s'.log = toggles s.log + 1)

/-- Log of one slice whose poll returned 0: the 50 ms sleep and then either a
poll that read the input high at once, or (`glitch`) a poll that read it low,
slept the 30 ms settle and read it high. -/
def slice_log (glitch : Bool) : List Event :=
  if glitch then
    [Event.delay 50, Event.poll, Event.read false, Event.delay 30, Event.read true]
  else
    [Event.delay 50, Event.poll, Event.read true]

/-- Log of consecutive slices whose polls all returned 0; the list says, slice
by slice, whether the poll rejected a glitch. -/
def slices_log : List Bool → List Event
  | [] => []
  | g :: gs => slice_log g ++ slices_log gs

/-- Number of entries of `button_pressed` recorded in a log. -/
def polls (log : List Event) : Nat :=
  log.count Event.poll

/-- States in which an invocation of a pattern can start: any state with the
scanner statics at their initial values `(pos, dir) = (0, +1)`, and every state
a pattern invocation returned in, interrupted or not. -/
inductive ScanReachable (w : Wire) : State → Prop
  | start (s : State) : s.pos = 0 → s.dir = 1 → ScanReachable w s
  | larson (fuel : Nat) (s s' : State) :
      ScanReachable w s → pattern_larson w fuel s = .ok s' → ScanReachable w s'
  | odd_even (fuel : Nat) (s s' : State) :
      ScanReachable w s → pattern_odd_even w fuel s = .ok s' → ScanReachable w s'

/-- Invariant of the scanner statics: `pos` stays inside the table, `dir` is a
unit step, and at either end `dir` already points inwards. -/
def ScanInv (s : State) : Prop :=
  0 ≤ s.pos ∧ s.pos ≤ 7 ∧ (s.dir = -1 ∨ s.dir = 1)
    ∧ (s.pos = 0 → s.dir = 1) ∧ (s.pos = 7 → s.dir = -1)

/-- What an observer sees of an invocation of a pattern: whether line 3 is on
at the return, the scanner position and the number of toggles logged. -/
def observe_tick (r : Except Fault State) : Option (Bool × Int × Nat) :=
  match r with
  | .ok s => some (s.leds 3, s.pos, toggles s.log)
  | .error _ => none

/-- A button that is held down for ever. -/
def stuck_low : Wire := fun _ => false

/-- A scanner state in the middle of the bank, moving down. -/
def scanner_at_3 : State :=
  { main_init all_off with mode := 1, pos := 3, dir := -1 }

/-- Times at which the input is sampled, as gaps: with `since` ms elapsed since
the previous read (or since the start), the time elapsed before each read of
the input register in the log.  Time passes in `delay` and `spin` events. -/
def sample_gaps_from (since : Nat) : List Event → List Nat
  | [] => []
  | Event.delay ms :: es => sample_gaps_from (since + ms) es
  | Event.spin :: es => sample_gaps_from (since + 1) es
  | Event.read _ :: es => since :: sample_gaps_from 0 es
  | Event.outSet _ :: es => sample_gaps_from since es
  | Event.outClr _ :: es => sample_gaps_from since es
  | Event.poll :: es => sample_gaps_from since es
  | Event.toggle :: es => sample_gaps_from since es

/-- Time elapsed since the last read of the input register at the end of a
log, with `since` ms elapsed since the previous read at its start. -/
def since_last_sample (since : Nat) : List Event → Nat
  | [] => since
  | Event.delay ms :: es => since_last_sample (since + ms) es
  | Event.spin :: es => since_last_sample (since + 1) es
  | Event.read _ :: es => since_last_sample 0 es
  | Event.outSet _ :: es => since_last_sample since es
  | Event.outClr _ :: es => since_last_sample since es
  | Event.poll :: es => since_last_sample since es
  | Event.toggle :: es => since_last_sample since es

/-- Time from the start of a log to its first read of the input register,
followed by the times between each two consecutive reads. -/
def sample_gaps (evs : List Event) : List Nat :=
  sample_gaps_from 0 evs

/-- What an observer sees of a run: the sampling gaps of its whole log and the
number of toggles logged. -/
def observe_run (r : Except Fault State) : Option (List Nat × Nat) :=
  match r with
  | .ok s => some (sample_gaps s.log, toggles s.log)
  | .error _ => none

/-! ## Supporting lemmas -/

theorem button_pressed_idle (w : Wire) (fuel : Nat) (s : State) (h : w s.now = true) :
    button_pressed w fuel s
      = .ok (0, { s with log := s.log ++ [Event.poll, Event.read true] }) := by
  simp [button_pressed, read_button, emit, h]

theorem delay_loop_quiet (w : Wire) (fuel : Nat) (n : Nat) (s : State)
    (hq : ∀ i, i < n → w (s.now + 50 * (i + 1)) = true) :
    delay_loop w fuel n s
      = .ok (0, { s with now := s.now + 50 * n, log := s.log ++ quiet_slices n }) := by
  induction n generalizing s with
  | zero => simp [delay_loop, quiet_slices]
  | succ n ih =>
    have h0 : w ((MXC_Delay_MSEC 50 s).now) = true := by
      have := hq 0 (Nat.succ_pos n)
      simpa [MXC_Delay_MSEC] using this
    rw [delay_loop, button_pressed_idle w fuel _ h0]
    simp only [ne_eq, not_true_eq_false, if_false]
    rw [ih]
    · simp [MXC_Delay_MSEC, quiet_slices]
      omega
    · intro i hi
      have := hq (i + 1) (Nat.succ_lt_succ hi)
      simp [MXC_Delay_MSEC]
      rw [← this]; congr 1; omega

theorem tdiv_cast (n : Nat) : Int.tdiv (n : Int) 50 = ((n / 50 : Nat) : Int) := by
  simp [Int.tdiv]
theorem tmod_cast (n : Nat) : Int.tmod (n : Int) 50 = ((n % 50 : Nat) : Int) := by
  simp [Int.tmod]

theorem InputStep.refl (s : State) : InputStep s s :=
  ⟨rfl, rfl, rfl, rfl, Nat.le_refl _, [], by simp, by simp⟩

theorem InputStep.trans {a b c : State} (h1 : InputStep a b) (h2 : InputStep b c) :
    InputStep a c := by
  obtain ⟨e1, he1, hp1⟩ := h1.log_ext
  obtain ⟨e2, he2, hp2⟩ := h2.log_ext
  refine ⟨h2.mode_eq.trans h1.mode_eq, h2.leds_eq.trans h1.leds_eq,
    h2.pos_eq.trans h1.pos_eq, h2.dir_eq.trans h1.dir_eq,
    Nat.le_trans h1.now_le h2.now_le, e1 ++ e2, ?_, ?_⟩
  · rw [he2, he1, List.append_assoc]
  · intro e he
    rcases List.mem_append.mp he with h | h
    · exact hp1 e h
    · exact hp2 e h

theorem InputStep.delay (ms : Nat) (s : State) : InputStep s (MXC_Delay_MSEC ms s) :=
  ⟨rfl, rfl, rfl, rfl, Nat.le_add_right _ _, [Event.delay ms], rfl, by simp [Event.is_input]⟩

theorem InputStep.emit_poll (s : State) : InputStep s (emit Event.poll s) :=
  ⟨rfl, rfl, rfl, rfl, Nat.le_refl _, [Event.poll], rfl, by simp [Event.is_input]⟩

theorem InputStep.read (w : Wire) (s : State) : InputStep s (read_button w s).2 :=
  ⟨rfl, rfl, rfl, rfl, Nat.le_refl _, [Event.read (w s.now)], rfl, by simp [Event.is_input]⟩

theorem wait_release_step (w : Wire) (fuel : Nat) (s s' : State)
    (h : wait_release w fuel s = .ok s') : InputStep s s' := by
  induction fuel generalizing s with
  | zero =>
    unfold wait_release at h
    split at h
    · cases h
    · cases h; exact InputStep.read w s
  | succ n ih =>
    unfold wait_release at h
    split at h
    · refine InputStep.trans ?_ (ih _ h)
      exact ⟨rfl, rfl, rfl, rfl, Nat.le_succ _, [Event.read (w s.now), Event.spin],
        by simp [read_button, emit], by simp [Event.is_input]⟩
    · cases h; exact InputStep.read w s

theorem wait_release_ok (w : Wire) (d : Nat) : ∀ (fuel : Nat) (s : State),
    (∀ j, j < d → w (s.now + j) = false) → w (s.now + d) = true → d ≤ fuel →
    wait_release w fuel s
      = .ok { s with now := s.now + d, log := s.log ++ spin_log d } := by
  induction d with
  | zero =>
    intro fuel s _ hr _
    have hr' : w s.now = true := by simpa using hr
    cases fuel <;> simp [wait_release, read_button, emit, hr', spin_log]
  | succ d ih =>
    intro fuel s hlow hr hf
    have h0 : w s.now = false := by simpa using hlow 0 (Nat.succ_pos d)
    cases fuel with
    | zero => omega
    | succ f =>
      simp only [wait_release, read_button, emit, h0, Bool.not_false, if_true]
      rw [ih]
      · simp [spin_log]; omega
      · intro j hj
        have := hlow (j + 1) (Nat.succ_lt_succ hj)
        simp only
        rw [← this]; congr 1; omega
      · simp only
        rw [← hr]; congr 1; omega
      · omega

theorem button_pressed_glitch (w : Wire) (fuel : Nat) (s : State)
    (h1 : w s.now = false) (h2 : w (s.now + 30) = true) :
    button_pressed w fuel s
      = .ok (0, { s with now := s.now + 30,
                         log := s.log ++ [Event.poll, Event.read false, Event.delay 30,
                                          Event.read true] }) := by
  simp [button_pressed, read_button, emit, MXC_Delay_MSEC, h1, h2]

theorem button_pressed_confirmed (w : Wire) (fuel : Nat) (s : State) (d : Nat)
    (h1 : w s.now = false)
    (hlow : ∀ j, j < d → w (s.now + 30 + j) = false) (hrel : w (s.now + 30 + d) = true)
    (h2 : 0 < d) (hf : d ≤ fuel) :
    button_pressed w fuel s
      = .ok (1, { s with now := s.now + 30 + d + 30,
                         log := s.log ++ [Event.poll, Event.read false, Event.delay 30,
                                          Event.read false] ++ spin_log d ++ [Event.delay 30] }) := by
  have h30 : w (s.now + 30) = false := by simpa using hlow 0 h2
  simp only [button_pressed, read_button, emit, MXC_Delay_MSEC, h1, h30, Bool.not_false, if_true]
  rw [wait_release_ok w d fuel _ (by simpa using hlow) (by simpa using hrel) hf]
  simp

theorem button_pressed_step (w : Wire) (fuel : Nat) (s s' : State) (b : Int)
    (h : button_pressed w fuel s = .ok (b, s')) :
    (b = 0 ∨ b = 1) ∧ InputStep s s' := by
  unfold button_pressed at h
  simp only at h
  split at h
  · split at h
    · split at h
      · rename_i s3 hs3
        cases h
        refine ⟨Or.inr rfl, ?_⟩
        refine InputStep.trans (InputStep.emit_poll s) ?_
        refine InputStep.trans (InputStep.read w _) ?_
        refine InputStep.trans (InputStep.delay 30 _) ?_
        refine InputStep.trans (InputStep.read w _) ?_
        exact InputStep.trans (wait_release_step w fuel _ _ hs3) (InputStep.delay 30 _)
      · cases h
    · cases h
      refine ⟨Or.inl rfl, ?_⟩
      refine InputStep.trans (InputStep.emit_poll s) ?_
      refine InputStep.trans (InputStep.read w _) ?_
      exact InputStep.trans (InputStep.delay 30 _) (InputStep.read w _)
  · cases h
    exact ⟨Or.inl rfl, InputStep.trans (InputStep.emit_poll s) (InputStep.read w _)⟩

theorem leds_off_eq (s : State) :
    leds_off s = { s with leds := fun _ => false, log := s.log ++ all_clear_log } := by
  have hl : (Function.update (Function.update (Function.update (Function.update
      (Function.update (Function.update (Function.update (Function.update s.leds
        0 false) 1 false) 2 false) 3 false) 4 false) 5 false) 6 false) 7 false)
      = fun _ => false := by
    funext i
    fin_cases i <;> simp [Function.update]
  simp [leds_off, leds_off_loop, NUM_LEDS, MXC_GPIO_OutClr, all_clear_log]
  exact hl

theorem acknowledged_eq (s : State) :
    acknowledged s = { s with now := s.now + 200, mode := Int.xor s.mode 1,
                              leds := fun _ => false,
                              log := s.log ++ [Event.toggle] ++ all_clear_log ++ [Event.delay 200] } := by
  simp [acknowledged, leds_off_eq, toggle_mode, MXC_Delay_MSEC]

theorem delay_loop_outcome (w : Wire) (fuel : Nat) (n : Nat) (s s' : State) (r : Int)
    (h : delay_loop w fuel n s = .ok (r, s')) : Outcome s r s' := by
  induction n generalizing s with
  | zero =>
    simp [delay_loop] at h
    obtain ⟨rfl, rfl⟩ := h
    exact Or.inl ⟨rfl, InputStep.refl _⟩
  | succ n ih =>
    unfold delay_loop at h
    split at h
    · cases h
    · rename_i b s1 hb
      have hs := (button_pressed_step w fuel _ _ _ hb).2
      have h01 : InputStep s s1 := InputStep.trans (InputStep.delay 50 s) hs
      split at h
      · cases h
        exact Or.inr ⟨rfl, s1, h01, rfl⟩
      · rcases ih s1 h with ⟨hr, hstep⟩ | ⟨hr, m, hstep, hm⟩
        · exact Or.inl ⟨hr, InputStep.trans h01 hstep⟩
        · exact Or.inr ⟨hr, m, InputStep.trans h01 hstep, hm⟩

theorem delay_outcome (w : Wire) (fuel : Nat) (total_ms : Int) (s s' : State) (r : Int)
    (h : delay_with_button_check w fuel total_ms s = .ok (r, s')) : Outcome s r s' := by
  unfold delay_with_button_check at h
  simp only at h
  split at h
  · cases h
  · rename_i r1 s1 h1
    have ho := delay_loop_outcome w fuel _ s s1 r1 h1
    split at h
    · rename_i hne
      cases h
      rcases ho with ⟨hr, _⟩ | ⟨_, hm⟩
      · exact absurd hr hne
      · exact Or.inr ⟨rfl, hm⟩
    · rename_i heq
      have hr0 : r1 = 0 := by simpa using heq
      rcases ho with ⟨_, hstep⟩ | ⟨hr, _⟩
      · split at h
        · cases h
          exact Or.inl ⟨rfl, InputStep.trans hstep (InputStep.delay _ _)⟩
        · cases h
          exact Or.inl ⟨rfl, hstep⟩
      · rw [hr0] at hr; exact absurd hr (by decide)

theorem toggles_input (evs : List Event) (h : ∀ e ∈ evs, e.is_input = true) :
    toggles evs = 0 := by
  unfold toggles
  rw [List.count_eq_zero]
  intro hmem
  have := h _ hmem
  simp [Event.is_input] at this

theorem toggles_append (a b : List Event) : toggles (a ++ b) = toggles a + toggles b := by
  simp [toggles, List.count_append]

theorem InputStep.toggles_eq {s s' : State} (h : InputStep s s') :
    toggles s'.log = toggles s.log := by
  obtain ⟨evs, he, hp⟩ := h.log_ext
  rw [he, toggles_append, toggles_input evs hp]; rfl

theorem toggles_acknowledged (s : State) :
    toggles (acknowledged s).log = toggles s.log + 1 := by
  rw [acknowledged_eq]
  simp [toggles, List.count_append, all_clear_log, List.count_cons]

theorem Outcome.mode_toggles {s s' : State} {r : Int} (h : Outcome s r s') :
    (r = 1 ∧ s'.mode = Int.xor s.mode 1 ∧ toggles s'.log = toggles s.log + 1)
      ∨ (r = 0 ∧ s'.mode = s.mode ∧ toggles s'.log = toggles s.log) := by
  rcases h with ⟨hr, hstep⟩ | ⟨hr, m, hstep, hm⟩
  · exact Or.inr ⟨hr, hstep.mode_eq, hstep.toggles_eq⟩
  · refine Or.inl ⟨hr, ?_, ?_⟩
    · rw [hm, acknowledged_eq]; simp [hstep.mode_eq]
    · rw [hm, toggles_acknowledged, hstep.toggles_eq]

/-! ### Enough fuel makes every call return when the input is released -/

theorem wait_release_total (w : Wire) (hw : Releasing w) (s : State) :
    ∃ F s', ∀ fuel, F ≤ fuel → wait_release w fuel s = .ok s' := by
  have hex : ∃ d, w (s.now + d) = true := by
    obtain ⟨t', ht, hh⟩ := hw s.now
    exact ⟨t' - s.now, by rw [Nat.add_sub_cancel' ht]; exact hh⟩
  refine ⟨Nat.find hex, _, fun fuel hf =>
    wait_release_ok w (Nat.find hex) fuel s ?_ (Nat.find_spec hex) hf⟩
  intro j hj
  have := Nat.find_min hex hj
  simpa using this

theorem button_pressed_total (w : Wire) (hw : Releasing w) (s : State) :
    ∃ F b s', ∀ fuel, F ≤ fuel → button_pressed w fuel s = .ok (b, s') := by
  obtain ⟨F, s3, hF⟩ := wait_release_total w hw
    (read_button w (MXC_Delay_MSEC 30 (read_button w (emit Event.poll s)).2)).2
  by_cases h1 : w s.now = true
  · exact ⟨0, _, _, fun fuel _ => button_pressed_idle w fuel s h1⟩
  · have h1' : w s.now = false := by simpa using h1
    by_cases h2 : w (s.now + 30) = true
    · exact ⟨0, _, _, fun fuel _ => button_pressed_glitch w fuel s h1' h2⟩
    · have h2' : w (s.now + 30) = false := by simpa using h2
      refine ⟨F, 1, MXC_Delay_MSEC 30 s3, fun fuel hf => ?_⟩
      have := hF fuel hf
      simp only [button_pressed, read_button, emit, MXC_Delay_MSEC, h1', h2', Bool.not_false,
        if_true] at this ⊢
      rw [this]

theorem delay_loop_total (w : Wire) (hw : Releasing w) (n : Nat) (s : State) :
    ∃ F r s', ∀ fuel, F ≤ fuel → delay_loop w fuel n s = .ok (r, s') := by
  induction n generalizing s with
  | zero => exact ⟨0, 0, s, fun _ _ => rfl⟩
  | succ n ih =>
    obtain ⟨F1, b, s1, h1⟩ := button_pressed_total w hw (MXC_Delay_MSEC 50 s)
    by_cases hb : b ≠ 0
    · refine ⟨F1, 1, acknowledged s1, fun fuel hf => ?_⟩
      rw [delay_loop, h1 fuel hf]
      simp [hb, acknowledged]
    · obtain ⟨F2, r, s2, h2⟩ := ih s1
      refine ⟨max F1 F2, r, s2, fun fuel hf => ?_⟩
      rw [delay_loop, h1 fuel (le_trans (le_max_left _ _) hf)]
      simp only [hb, if_false]
      exact h2 fuel (le_trans (le_max_right _ _) hf)

theorem delay_total (w : Wire) (hw : Releasing w) (total_ms : Int) (s : State) :
    ∃ F r s', ∀ fuel, F ≤ fuel → delay_with_button_check w fuel total_ms s = .ok (r, s') := by
  obtain ⟨F, r1, s1, h1⟩ := delay_loop_total w hw (Int.tdiv total_ms 50).toNat s
  by_cases hr : r1 ≠ 0
  · refine ⟨F, 1, s1, fun fuel hf => ?_⟩
    simp [delay_with_button_check, h1 fuel hf, hr]
  · by_cases hrem : Int.tmod total_ms 50 > 0
    · refine ⟨F, 0, MXC_Delay_MSEC (Int.tmod total_ms 50).toNat s1, fun fuel hf => ?_⟩
      simp only [delay_with_button_check, h1 fuel hf, hr, hrem, if_true, if_false]
    · refine ⟨F, 0, s1, fun fuel hf => ?_⟩
      simp only [delay_with_button_check, h1 fuel hf, hr, hrem, if_false]

theorem led_cfgs_ok (i : Fin 8) : led_cfgs (i.val : Int) = .ok i := by
  have h : 0 ≤ (i.val : Int) ∧ (i.val : Int) < 8 := ⟨by omega, by omega⟩
  simp [led_cfgs, h]

theorem update_even (l : Leds) :
    Function.update (Function.update (Function.update (Function.update
      (Function.update (Function.update (Function.update (Function.update l
        0 true) 1 false) 2 true) 3 false) 4 true) 5 false) 6 true) 7 false = frame_even := by
  funext i
  fin_cases i <;> simp [Function.update, frame_even]

theorem update_odd (l : Leds) :
    Function.update (Function.update (Function.update (Function.update
      (Function.update (Function.update (Function.update (Function.update l
        0 false) 1 true) 2 false) 3 true) 4 false) 5 true) 6 false) 7 true = frame_odd := by
  funext i
  fin_cases i <;> simp [Function.update, frame_odd]

theorem phase_even_eq (s : State) :
    phase_even s = .ok { s with leds := frame_even, log := s.log ++ even_writes } := by
  have h0 : led_cfgs 0 = .ok 0 := rfl
  have h1 : led_cfgs 1 = .ok 1 := rfl
  have h2 : led_cfgs 2 = .ok 2 := rfl
  have h3 : led_cfgs 3 = .ok 3 := rfl
  have h4 : led_cfgs 4 = .ok 4 := rfl
  have h5 : led_cfgs 5 = .ok 5 := rfl
  have h6 : led_cfgs 6 = .ok 6 := rfl
  have h7 : led_cfgs 7 = .ok 7 := rfl
  simp [phase_even, for_loop, NUM_LEDS, led_on, led_off, h0, h1, h2, h3, h4, h5, h6, h7,
    MXC_GPIO_OutSet, MXC_GPIO_OutClr, even_writes, Int.tmod]
  exact update_even s.leds

theorem led_cfgs_table :
    led_cfgs 0 = .ok 0 ∧ led_cfgs 1 = .ok 1 ∧ led_cfgs 2 = .ok 2 ∧ led_cfgs 3 = .ok 3
      ∧ led_cfgs 4 = .ok 4 ∧ led_cfgs 5 = .ok 5 ∧ led_cfgs 6 = .ok 6 ∧ led_cfgs 7 = .ok 7 :=
  ⟨rfl, rfl, rfl, rfl, rfl, rfl, rfl, rfl⟩

theorem phase_odd_eq (s : State) :
    phase_odd s = .ok { s with leds := frame_odd, log := s.log ++ odd_writes } := by
  obtain ⟨h0, h1, h2, h3, h4, h5, h6, h7⟩ := led_cfgs_table
  simp [phase_odd, for_loop, NUM_LEDS, led_on, led_off, h0, h1, h2, h3, h4, h5, h6, h7,
    MXC_GPIO_OutSet, MXC_GPIO_OutClr, odd_writes, Int.tmod]
  exact update_odd s.leds

theorem delay_quiet (w : Wire) (fuel : Nat) (total_ms : Nat) (s : State)
    (hq : ∀ i, i < total_ms / 50 → w (s.now + 50 * (i + 1)) = true) :
    delay_with_button_check w fuel (total_ms : Int) s
      = .ok (0, { s with now := s.now + total_ms,
                         log := s.log ++ quiet_slices (total_ms / 50) ++ remainder_log total_ms }) := by
  unfold delay_with_button_check remainder_log
  simp only [tdiv_cast, tmod_cast, Int.toNat_ofNat]
  rw [delay_loop_quiet w fuel _ s hq]
  by_cases hr : total_ms % 50 = 0
  · have e : s.now + 50 * (total_ms / 50) = s.now + total_ms := by omega
    simp [hr, e]
  · have : (0:Int) < ((total_ms % 50 : Nat) : Int) := by omega
    have e : s.now + 50 * (total_ms / 50) + total_ms % 50 = s.now + total_ms := by omega
    simp only [gt_iff_lt, this, if_true, ne_eq, not_true_eq_false, if_false, hr]
    simp [MXC_Delay_MSEC, e]

theorem hold_120_quiet (w : Wire) (fuel : Nat) (s : State)
    (hq : ∀ i, i < 2 → w (s.now + 50 * (i + 1)) = true) :
    delay_with_button_check w fuel 120 s
      = .ok (0, { s with now := s.now + 120,
                         log := s.log ++ quiet_slices 2 ++ [Event.delay 20] }) := by
  have := delay_quiet w fuel 120 s hq
  simpa [remainder_log] using this

theorem timeline_from_quiet (cur : Leds) (n : Nat) : ∀ (held : Nat) (rest : List Event),
    timeline_from cur held (quiet_slices n ++ rest) = timeline_from cur (held + 50 * n) rest := by
  induction n with
  | zero => intro held rest; simp [quiet_slices]
  | succ n ih =>
    intro held rest
    rw [show quiet_slices (n + 1) ++ rest
        = Event.delay 50 :: Event.poll :: Event.read true :: (quiet_slices n ++ rest) from rfl]
    simp only [timeline_from]
    rw [ih]
    congr 1; omega

theorem update_one_hot (i : Fin 8) :
    Function.update (fun _ => false : Leds) i true = one_hot (i.val : Int) := by
  funext j
  by_cases h : j = i
  · subst h; simp [one_hot]
  · have : ¬ ((j.val : Int) = (i.val : Int)) := by
      intro hc; apply h; apply Fin.ext; omega
    simp [Function.update, h, one_hot, this]

theorem larson_frame_eq (s : State) (i : Fin 8) (hi : (i.val : Int) = s.pos) :
    larson_frame s
      = .ok { s with leds := one_hot s.pos, log := s.log ++ all_clear_log ++ [Event.outSet i] } := by
  have hc := led_cfgs_ok i
  rw [hi] at hc
  simp only [larson_frame, led_on, leds_off_eq, hc, MXC_GPIO_OutSet, update_one_hot, hi]

theorem pattern_larson_quiet (w : Wire) (fuel : Nat) (s : State) (i : Fin 8)
    (hi : (i.val : Int) = s.pos)
    (hq : w (s.now + 50) = true ∧ w (s.now + 100) = true) :
    pattern_larson w fuel s
      = .ok (larson_advance { s with now := s.now + 120, leds := one_hot s.pos,
                                     log := s.log ++ larson_log i }) := by
  unfold pattern_larson
  rw [larson_frame_eq s i hi]
  simp only
  rw [hold_120_quiet w fuel]
  · simp [larson_log]
  · intro j hj
    have : j = 0 ∨ j = 1 := by omega
    rcases this with rfl | rfl
    · simpa using hq.1
    · simpa using hq.2

theorem timeline_larson (cur : Leds) (held : Nat) (i : Fin 8) (rest : List Event) :
    timeline_from cur held (larson_log i ++ rest)
      = (if held = 0 then [] else [(cur, held)])
          ++ timeline_from (one_hot (i.val : Int)) 120 rest := by
  have hl : ∀ l : Leds, (Function.update (Function.update (Function.update (Function.update
      (Function.update (Function.update (Function.update (Function.update l
        0 false) 1 false) 2 false) 3 false) 4 false) 5 false) 6 false) 7 false)
      = fun _ => false := by
    intro l
    funext j
    fin_cases j <;> simp [Function.update]
  simp only [larson_log, all_clear_log, List.append_assoc, List.cons_append,
    List.nil_append, timeline_from, timeline_from_quiet, hl, update_one_hot]
  simp [quiet_slices, timeline_from]

theorem wait_release_short (w : Wire) (fuel : Nat) : ∀ (s : State),
    (∀ j, j ≤ fuel → w (s.now + j) = false) → wait_release w fuel s = .error Fault.spinning := by
  induction fuel with
  | zero =>
    intro s h
    have h0 : w s.now = false := by simpa using h 0 (Nat.le_refl 0)
    simp [wait_release, read_button, h0]
  | succ f ih =>
    intro s h
    have h0 : w s.now = false := by simpa using h 0 (Nat.zero_le _)
    simp only [wait_release, read_button, emit, h0, Bool.not_false, if_true]
    apply ih
    intro j hj
    have := h (j + 1) (Nat.succ_le_succ hj)
    simp only
    rw [← this]; congr 1; omega

theorem Outcome.no_outSet {s s' : State} {r : Int} (h : Outcome s r s') :
    ∃ evs, s'.log = s.log ++ evs ∧ ∀ i, Event.outSet i ∉ evs := by
  have hin : ∀ (evs : List Event), (∀ e ∈ evs, e.is_input = true) →
      ∀ i, Event.outSet i ∉ evs := by
    intro evs hp i hmem
    have := hp _ hmem
    simp [Event.is_input] at this
  rcases h with ⟨_, hstep⟩ | ⟨_, m, hstep, hm⟩
  · obtain ⟨evs, he, hp⟩ := hstep.log_ext
    exact ⟨evs, he, hin evs hp⟩
  · obtain ⟨evs, he, hp⟩ := hstep.log_ext
    refine ⟨evs ++ ([Event.toggle] ++ all_clear_log ++ [Event.delay 200]), ?_, ?_⟩
    · rw [hm, acknowledged_eq, he]; simp
    · intro i hmem
      rcases List.mem_append.mp hmem with h1 | h1
      · exact hin evs hp i h1
      · simp [all_clear_log] at h1

theorem toggles_append_free (log evs : List Event) (h : Event.toggle ∉ evs) :
    toggles (log ++ evs) = toggles log := by
  rw [toggles_append]
  have : toggles evs = 0 := by
    unfold toggles
    exact List.count_eq_zero.mpr h
  omega

theorem Outcome.mode_step {s s' : State} {r : Int} (h : Outcome s r s') : ModeStep s s' := by
  rcases h.mode_toggles with ⟨_, h1, h2⟩ | ⟨_, h1, h2⟩
  · exact Or.inr ⟨h1, h2⟩
  · exact Or.inl ⟨h1, h2⟩

theorem pattern_odd_even_mode (w : Wire) (fuel : Nat) (s s' : State)
    (h : pattern_odd_even w fuel s = .ok s') : ModeStep s s' := by
  unfold pattern_odd_even at h
  rw [phase_even_eq] at h
  simp only at h
  have te : ∀ l, toggles (l ++ even_writes) = toggles l :=
    fun l => toggles_append_free l _ (by simp [even_writes])
  have tod : ∀ l, toggles (l ++ odd_writes) = toggles l :=
    fun l => toggles_append_free l _ (by simp [odd_writes])
  split at h
  · cases h
  · rename_i r s2 h1
    have o1 := delay_outcome w fuel _ _ _ _ h1
    split at h
    · cases h
      have := o1.mode_step
      simpa [ModeStep, te] using this
    · rename_i hr
      have hr0 : r = 0 := by simpa using hr
      rcases o1 with ⟨_, st1⟩ | ⟨hr1, _⟩
      · rw [phase_odd_eq] at h
        simp only at h
        split at h
        · cases h
        · rename_i r2 s4 h2
          cases h
          have o2 := (delay_outcome w fuel _ _ _ _ h2).mode_step
          have m1 := st1.mode_eq
          have t1 := st1.toggles_eq
          simp only [te] at m1 t1
          simpa [ModeStep, tod, m1, t1] using o2
      · rw [hr0] at hr1; exact absurd hr1 (by decide)

theorem larson_frame_step (s s1 : State) (h : larson_frame s = .ok s1) :
    s1.mode = s.mode ∧ s1.pos = s.pos ∧ s1.dir = s.dir ∧ s1.now = s.now
      ∧ toggles s1.log = toggles s.log := by
  unfold larson_frame led_on at h
  split at h
  · cases h
    rw [leds_off_eq]
    refine ⟨rfl, rfl, rfl, rfl, ?_⟩
    simp [MXC_GPIO_OutSet, toggles, List.count_append, all_clear_log, List.count_cons]
  · cases h

theorem pattern_larson_mode (w : Wire) (fuel : Nat) (s s' : State)
    (h : pattern_larson w fuel s = .ok s') : ModeStep s s' := by
  unfold pattern_larson at h
  split at h
  · cases h
  · rename_i s1 hf
    obtain ⟨fm, _, _, _, ft⟩ := larson_frame_step s s1 hf
    split at h
    · cases h
    · rename_i r s2 h1
      have o1 := (delay_outcome w fuel _ _ _ _ h1).mode_step
      split at h <;> cases h <;> simpa [ModeStep, larson_advance, fm, ft] using o1

theorem main_tick_mode (w : Wire) (fuel : Nat) (s s' : State)
    (h : main_tick w fuel s = .ok s') : ModeStep s s' := by
  unfold main_tick at h
  split at h
  · exact pattern_odd_even_mode w fuel s s' h
  · exact pattern_larson_mode w fuel s s' h

theorem xor_one_facts (m : Int) (h : m = 0 ∨ m = 1) :
    (Int.xor m 1 = 0 ∨ Int.xor m 1 = 1) ∧ Int.xor (Int.xor m 1) 1 = m := by
  rcases h with rfl | rfl
  · exact ⟨Or.inr (by decide), by decide⟩
  · exact ⟨Or.inl (by decide), by decide⟩

theorem reachable_mode (w : Wire) (s : State) (h : Reachable w s) : s.mode = 0 ∨ s.mode = 1 := by
  induction h with
  | init leds =>
    left
    simp [main_init, init_button, setup_leds, leds_off_loop, NUM_LEDS, MXC_GPIO_OutClr, boot]
  | tick fuel s s' _ ht ih =>
    rcases main_tick_mode w fuel s s' ht with ⟨hm, _⟩ | ⟨hm, _⟩
    · rw [hm]; exact ih
    · rw [hm]; exact (xor_one_facts s.mode ih).1

theorem Outcome.scanner {s s' : State} {r : Int} (h : Outcome s r s') :
    s'.pos = s.pos ∧ s'.dir = s.dir := by
  rcases h with ⟨_, st⟩ | ⟨_, m, st, hm⟩
  · exact ⟨st.pos_eq, st.dir_eq⟩
  · rw [hm, acknowledged_eq]
    exact ⟨st.pos_eq, st.dir_eq⟩

theorem Outcome.after_step {a b c : State} {r : Int} (h1 : InputStep a b) (h2 : Outcome b r c) :
    Outcome a r c := by
  rcases h2 with ⟨hr, st⟩ | ⟨hr, m, st, hm⟩
  · exact Or.inl ⟨hr, h1.trans st⟩
  · exact Or.inr ⟨hr, m, h1.trans st, hm⟩

theorem delay_loop_first_slice (w : Wire) (fuel : Nat) (n : Nat) (s s' : State) (r : Int)
    (h : delay_loop w fuel (n + 1) s = .ok (r, s')) : Outcome (MXC_Delay_MSEC 50 s) r s' := by
  unfold delay_loop at h
  split at h
  · cases h
  · rename_i b s1 hb
    have hs := (button_pressed_step w fuel _ _ _ hb).2
    split at h
    · cases h
      exact Or.inr ⟨rfl, s1, hs, rfl⟩
    · exact Outcome.after_step hs (delay_loop_outcome w fuel n s1 s' r h)

theorem hold_120_first_slice (w : Wire) (fuel : Nat) (s s' : State) (r : Int)
    (h : delay_with_button_check w fuel 120 s = .ok (r, s')) :
    Outcome (MXC_Delay_MSEC 50 s) r s' := by
  unfold delay_with_button_check at h
  have e1 : (Int.tdiv 120 50).toNat = 1 + 1 := by decide
  simp only [e1] at h
  split at h
  · cases h
  · rename_i r1 s1 h1
    have ho := delay_loop_first_slice w fuel 1 s s1 r1 h1
    split at h
    · rename_i hne
      cases h
      rcases ho with ⟨hr, _⟩ | ⟨_, hm⟩
      · exact absurd hr hne
      · exact Or.inr ⟨rfl, hm⟩
    · rename_i heq
      have hr0 : r1 = 0 := by simpa using heq
      rcases ho with ⟨_, hstep⟩ | ⟨hr, _⟩
      · split at h
        · cases h
          exact Or.inl ⟨rfl, InputStep.trans hstep (InputStep.delay _ _)⟩
        · cases h
          exact Or.inl ⟨rfl, hstep⟩
      · rw [hr0] at hr; exact absurd hr (by decide)

/-! ### Calls that report no activation -/

theorem button_pressed_zero (w : Wire) (fuel : Nat) (s s' : State)
    (h : button_pressed w fuel s = .ok (0, s')) :
    (w s.now = true ∧ s' = { s with log := s.log ++ [Event.poll, Event.read true] })
      ∨ (w s.now = false ∧ w (s.now + 30) = true
          ∧ s' = { s with now := s.now + 30,
                          log := s.log ++ [Event.poll, Event.read false, Event.delay 30,
                                           Event.read true] }) := by
  by_cases h1 : w s.now = true
  · rw [button_pressed_idle w fuel s h1] at h
    injection h with h
    injection h with _ h
    exact Or.inl ⟨h1, h.symm⟩
  · have h1' : w s.now = false := by simpa using h1
    by_cases h2 : w (s.now + 30) = true
    · rw [button_pressed_glitch w fuel s h1' h2] at h
      injection h with h
      injection h with _ h
      exact Or.inr ⟨h1', h2, h.symm⟩
    · exfalso
      have h2' : w (s.now + 30) = false := by simpa using h2
      simp only [button_pressed, read_button, emit, MXC_Delay_MSEC, h1', h2', Bool.not_false,
        if_true] at h
      split at h
      · injection h with h
        injection h with h _
        exact absurd h (by decide)
      · cases h

theorem delay_loop_zero (w : Wire) (fuel : Nat) (n : Nat) (s s' : State)
    (h : delay_loop w fuel n s = .ok (0, s')) :
    ∃ gs : List Bool, gs.length = n
      ∧ s' = { s with now := s.now + 50 * n + 30 * gs.count true,
                      log := s.log ++ slices_log gs } := by
  induction n generalizing s with
  | zero =>
    simp only [delay_loop] at h
    injection h with h
    injection h with _ h
    exact ⟨[], rfl, by rw [← h]; simp [slices_log]⟩
  | succ n ih =>
    unfold delay_loop at h
    split at h
    · cases h
    · rename_i b s1 hb
      split at h
      · injection h with h
        injection h with h _
        exact absurd h (by decide)
      · rename_i hb0
        have hb0' : b = 0 := by simpa using hb0
        subst hb0'
        obtain ⟨gs, hlen, hs'⟩ := ih s1 h
        rcases button_pressed_zero w fuel _ _ hb with ⟨_, h1⟩ | ⟨_, _, h1⟩
        · refine ⟨false :: gs, by simp [hlen], ?_⟩
          rw [hs', h1]
          simp [MXC_Delay_MSEC, slices_log, slice_log]
          omega
        · refine ⟨true :: gs, by simp [hlen], ?_⟩
          rw [hs', h1]
          simp [MXC_Delay_MSEC, slices_log, slice_log]
          omega

theorem delay_zero (w : Wire) (fuel : Nat) (total_ms : Nat) (s s' : State)
    (h : delay_with_button_check w fuel (total_ms : Int) s = .ok (0, s')) :
    ∃ gs : List Bool, gs.length = total_ms / 50
      ∧ s' = { s with now := s.now + total_ms + 30 * gs.count true,
                      log := s.log ++ slices_log gs ++ remainder_log total_ms } := by
  unfold delay_with_button_check at h
  simp only [tdiv_cast, tmod_cast, Int.toNat_ofNat] at h
  split at h
  · cases h
  · rename_i r s1 h1
    split at h
    · injection h with h
      injection h with h _
      exact absurd h (by decide)
    · rename_i hr
      have hr0 : r = 0 := by simpa using hr
      subst hr0
      obtain ⟨gs, hlen, hs1⟩ := delay_loop_zero w fuel _ s s1 h1
      refine ⟨gs, hlen, ?_⟩
      by_cases hrem : total_ms % 50 = 0
      · have hn : ¬ ((0 : Int) < ((total_ms % 50 : Nat) : Int)) := by omega
        simp only [gt_iff_lt, hn, if_false] at h
        injection h with h
        injection h with _ h
        rw [← h, hs1]
        have e : s.now + 50 * (total_ms / 50) + 30 * List.count true gs
            = s.now + total_ms + 30 * List.count true gs := by omega
        simp [remainder_log, hrem, e]
      · have hp : (0 : Int) < ((total_ms % 50 : Nat) : Int) := by omega
        simp only [gt_iff_lt, hp, if_true] at h
        injection h with h
        injection h with _ h
        rw [← h, hs1]
        have e : s.now + 50 * (total_ms / 50) + 30 * List.count true gs + total_ms % 50
            = s.now + total_ms + 30 * List.count true gs := by omega
        simp [remainder_log, hrem, MXC_Delay_MSEC, e]

/-! ### Faults -/

theorem wait_release_fault (w : Wire) (fuel : Nat) (s : State) (e : Fault)
    (h : wait_release w fuel s = .error e) : e = Fault.spinning := by
  induction fuel generalizing s with
  | zero =>
    unfold wait_release at h
    split at h
    · injection h with h; exact h.symm
    · cases h
  | succ n ih =>
    unfold wait_release at h
    split at h
    · exact ih _ h
    · cases h

theorem button_pressed_fault (w : Wire) (fuel : Nat) (s : State) (e : Fault)
    (h : button_pressed w fuel s = .error e) : e = Fault.spinning := by
  unfold button_pressed at h
  simp only at h
  split at h
  · split at h
    · split at h
      · cases h
      · rename_i e' he
        injection h with h
        rw [← h]
        exact wait_release_fault w fuel _ e' he
    · cases h
  · cases h

theorem delay_loop_fault (w : Wire) (fuel : Nat) (n : Nat) (s : State) (e : Fault)
    (h : delay_loop w fuel n s = .error e) : e = Fault.spinning := by
  induction n generalizing s with
  | zero => simp [delay_loop] at h
  | succ n ih =>
    unfold delay_loop at h
    split at h
    · rename_i e' he
      injection h with h
      rw [← h]
      exact button_pressed_fault w fuel _ e' he
    · split at h
      · cases h
      · exact ih _ h

theorem delay_fault (w : Wire) (fuel : Nat) (total_ms : Int) (s : State) (e : Fault)
    (h : delay_with_button_check w fuel total_ms s = .error e) : e = Fault.spinning := by
  unfold delay_with_button_check at h
  simp only at h
  split at h
  · rename_i e' he
    injection h with h
    rw [← h]
    exact delay_loop_fault w fuel _ s e' he
  · split at h
    · cases h
    · split at h <;> cases h

/-! ### Scanner statics -/

theorem pattern_odd_even_scanner (w : Wire) (fuel : Nat) (s s' : State)
    (h : pattern_odd_even w fuel s = .ok s') : s'.pos = s.pos ∧ s'.dir = s.dir := by
  unfold pattern_odd_even at h
  rw [phase_even_eq] at h
  simp only at h
  split at h
  · cases h
  · rename_i r s2 h1
    have o1 := (delay_outcome w fuel _ _ _ _ h1).scanner
    split at h
    · cases h
      exact o1
    · rw [phase_odd_eq] at h
      simp only at h
      split at h
      · cases h
      · rename_i r2 s4 h2
        cases h
        have o2 := (delay_outcome w fuel _ _ _ _ h2).scanner
        exact ⟨o2.1.trans o1.1, o2.2.trans o1.2⟩

theorem pattern_larson_scanner (w : Wire) (fuel : Nat) (s s' : State)
    (h : pattern_larson w fuel s = .ok s') :
    (s'.pos = s.pos ∧ s'.dir = s.dir)
      ∨ (s'.pos = (larson_advance s).pos ∧ s'.dir = (larson_advance s).dir) := by
  unfold pattern_larson at h
  split at h
  · cases h
  · rename_i s1 hf
    obtain ⟨_, fp, fd, _, _⟩ := larson_frame_step s s1 hf
    split at h
    · cases h
    · rename_i r s2 h1
      obtain ⟨op, od⟩ := (delay_outcome w fuel _ _ _ _ h1).scanner
      split at h
      · cases h
        exact Or.inl ⟨op.trans fp, od.trans fd⟩
      · cases h
        right
        simp only [larson_advance, op, od, fp, fd, and_self]

theorem larson_advance_dir (s : State) :
    (larson_advance s).dir
      = if s.pos + s.dir = 0 then 1 else if s.pos + s.dir = 7 then -1 else s.dir := by
  simp only [larson_advance, NUM_LEDS]
  norm_num

theorem larson_advance_inv (s : State) (h : ScanInv s) : ScanInv (larson_advance s) := by
  obtain ⟨h0, h7, hd, he0, he7⟩ := h
  have hpos : (larson_advance s).pos = s.pos + s.dir := rfl
  have hdir := larson_advance_dir s
  unfold ScanInv
  rw [hpos, hdir]
  rcases hd with hd | hd
  · have hne : s.pos ≠ 0 := fun hc => by have := he0 hc; omega
    rw [hd]
    refine ⟨by omega, by omega, ?_, ?_, ?_⟩ <;> split_ifs <;> omega
  · have hne : s.pos ≠ 7 := fun hc => by have := he7 hc; omega
    rw [hd]
    refine ⟨by omega, by omega, ?_, ?_, ?_⟩ <;> split_ifs <;> omega

theorem scan_reachable_inv (w : Wire) (s : State) (h : ScanReachable w s) : ScanInv s := by
  induction h with
  | start s hp hd =>
    refine ⟨by omega, by omega, Or.inr hd, fun _ => hd, fun h7 => by omega⟩
  | larson fuel s s' _ hstep ih =>
    rcases pattern_larson_scanner w fuel s s' hstep with ⟨hp, hd⟩ | ⟨hp, hd⟩
    · unfold ScanInv at ih ⊢
      rw [hp, hd]; exact ih
    · have := larson_advance_inv s ih
      unfold ScanInv at this ⊢
      rw [hp, hd]; exact this
  | odd_even fuel s s' _ hstep ih =>
    obtain ⟨hp, hd⟩ := pattern_odd_even_scanner w fuel s s' hstep
    unfold ScanInv at ih ⊢
    rw [hp, hd]; exact ih

theorem larson_frame_leds (s s1 : State) (h : larson_frame s = .ok s1) :
    s1.leds = one_hot s.pos ∧ 0 ≤ s.pos ∧ s.pos < 8 := by
  by_cases hr : 0 ≤ s.pos ∧ s.pos < 8
  · have hi : ((⟨s.pos.toNat, by omega⟩ : Fin 8).val : Int) = s.pos := by
      simp only; omega
    rw [larson_frame_eq s _ hi] at h
    injection h with h
    exact ⟨by rw [← h], hr.1, hr.2⟩
  · exfalso
    simp [larson_frame, led_on, led_cfgs, leds_off_eq, hr] at h

theorem Outcome.leds_off {s s' : State} (h : Outcome s 1 s') : ∀ i, s'.leds i = false := by
  rcases h with ⟨h0, _⟩ | ⟨_, m, _, hm⟩
  · exact absurd h0 (by decide)
  · intro i
    rw [hm, acknowledged_eq]

/-! ### Return of `button_pressed` -/

theorem wait_release_returns (w : Wire) (s : State) (hex : ∃ d, w (s.now + d) = true) :
    ∃ F s', ∀ fuel, F ≤ fuel → wait_release w fuel s = .ok s' := by
  refine ⟨Nat.find hex, _, fun fuel hf =>
    wait_release_ok w (Nat.find hex) fuel s ?_ (Nat.find_spec hex) hf⟩
  intro j hj
  have := Nat.find_min hex hj
  simpa using this

theorem button_pressed_returns (w : Wire) (s : State)
    (hex : ∃ t, s.now + 30 ≤ t ∧ w t = true) :
    ∃ F b s', ∀ fuel, F ≤ fuel → button_pressed w fuel s = .ok (b, s') := by
  obtain ⟨t, ht, hwt⟩ := hex
  obtain ⟨F, s3, hF⟩ := wait_release_returns w
    (read_button w (MXC_Delay_MSEC 30 (read_button w (emit Event.poll s)).2)).2
    ⟨t - (s.now + 30), by
      simp only [read_button, emit, MXC_Delay_MSEC]
      rw [← hwt]; congr 1; omega⟩
  by_cases h1 : w s.now = true
  · exact ⟨0, _, _, fun fuel _ => button_pressed_idle w fuel s h1⟩
  · have h1' : w s.now = false := by simpa using h1
    by_cases h2 : w (s.now + 30) = true
    · exact ⟨0, _, _, fun fuel _ => button_pressed_glitch w fuel s h1' h2⟩
    · have h2' : w (s.now + 30) = false := by simpa using h2
      refine ⟨F, 1, MXC_Delay_MSEC 30 s3, fun fuel hf => ?_⟩
      have := hF fuel hf
      simp only [button_pressed, read_button, emit, MXC_Delay_MSEC, h1', h2', Bool.not_false,
        if_true] at this ⊢
      rw [this]

theorem button_pressed_stuck (w : Wire) (fuel : Nat) (s : State)
    (h : ∀ t, s.now ≤ t → w t = false) :
    button_pressed w fuel s = .error Fault.spinning := by
  have h1 : w s.now = false := h _ (Nat.le_refl _)
  have h30 : w (s.now + 30) = false := h _ (by omega)
  have hshort := wait_release_short w fuel
    (read_button w (MXC_Delay_MSEC 30 (read_button w (emit Event.poll s)).2)).2
    (fun j _ => h _ (by simp [read_button, emit, MXC_Delay_MSEC]; omega))
  simp only [button_pressed, read_button, emit, MXC_Delay_MSEC, h1, h30, Bool.not_false,
    if_true] at hshort ⊢
  rw [hshort]

/-! ### Sampling gaps and poll counts -/

theorem sample_gaps_append (x y : List Event) : ∀ a,
    sample_gaps_from a (x ++ y)
      = sample_gaps_from a x ++ sample_gaps_from (since_last_sample a x) y := by
  induction x with
  | nil => intro a; simp [sample_gaps_from, since_last_sample]
  | cons e es ih =>
    intro a
    cases e <;> simp [sample_gaps_from, since_last_sample, ih]

theorem since_last_sample_append (x y : List Event) : ∀ a,
    since_last_sample a (x ++ y) = since_last_sample (since_last_sample a x) y := by
  induction x with
  | nil => intro a; simp [since_last_sample]
  | cons e es ih =>
    intro a
    cases e <;> simp [since_last_sample, ih]

theorem slices_gaps (B : Nat) (hB : 50 ≤ B) (gs : List Bool) : ∀ a, a + 50 ≤ B →
    (∀ g ∈ sample_gaps_from a (slices_log gs), g ≤ B)
      ∧ since_last_sample a (slices_log gs) = (if gs.length = 0 then a else 0) := by
  induction gs with
  | nil => intro a _; simp [slices_log, sample_gaps_from, since_last_sample]
  | cons g gs ih =>
    intro a ha
    obtain ⟨ih1, ih2⟩ := ih 0 (by omega)
    have ih2' : since_last_sample 0 (slices_log gs) = 0 := by
      rw [ih2]; split_ifs <;> rfl
    cases g
    · simp only [slices_log, slice_log, List.cons_append, List.nil_append, sample_gaps_from,
        since_last_sample, Bool.false_eq_true, if_false]
      refine ⟨?_, by simp [ih2']⟩
      intro x hx
      rcases List.mem_cons.mp hx with rfl | hx
      · exact ha
      · exact ih1 x hx
    · simp only [slices_log, slice_log, List.cons_append, List.nil_append, sample_gaps_from,
        since_last_sample, if_true]
      refine ⟨?_, by simp [ih2']⟩
      intro x hx
      rcases List.mem_cons.mp hx with rfl | hx
      · exact ha
      · rcases List.mem_cons.mp hx with rfl | hx
        · omega
        · exact ih1 x hx

theorem polls_append (a b : List Event) : polls (a ++ b) = polls a + polls b := by
  simp [polls, List.count_append]

theorem polls_slices (gs : List Bool) : polls (slices_log gs) = gs.length := by
  induction gs with
  | nil => simp [slices_log, polls]
  | cons g gs ih =>
    rw [slices_log, polls_append, ih]
    cases g <;> simp [slice_log, polls, List.count_cons] <;> omega

theorem polls_remainder (total_ms : Nat) : polls (remainder_log total_ms) = 0 := by
  unfold remainder_log polls
  split_ifs <;> simp [List.count_cons]

theorem hold_400_zero (w : Wire) (fuel : Nat) (s s' : State)
    (h : delay_with_button_check w fuel 400 s = .ok (0, s')) :
    ∃ gs : List Bool, gs.length = 8 ∧ s'.log = s.log ++ slices_log gs := by
  obtain ⟨gs, hlen, hs'⟩ := delay_zero w fuel 400 s s' (by simpa using h)
  exact ⟨gs, by simpa using hlen, by rw [hs']; simp [remainder_log]⟩

theorem hold_120_zero (w : Wire) (fuel : Nat) (s s' : State)
    (h : delay_with_button_check w fuel 120 s = .ok (0, s')) :
    ∃ gs : List Bool, gs.length = 2 ∧ s'.log = s.log ++ slices_log gs ++ [Event.delay 20] := by
  obtain ⟨gs, hlen, hs'⟩ := delay_zero w fuel 120 s s' (by simpa using h)
  exact ⟨gs, by simpa using hlen, by rw [hs']; simp [remainder_log]⟩

theorem Outcome.zero_of_toggles {s s' : State} {r : Int} (h : Outcome s r s')
    (ht : toggles s'.log = toggles s.log) : r = 0 := by
  rcases h.mode_toggles with ⟨_, _, h2⟩ | ⟨h0, _, _⟩
  · omega
  · exact h0

theorem Outcome.toggles_grow {s s' : State} {r : Int} (h : Outcome s r s') :
    toggles s.log ≤ toggles s'.log := by
  rcases h.mode_toggles with ⟨_, _, h2⟩ | ⟨_, _, h2⟩ <;> omega

theorem ModeStep.toggles_le {s s' : State} (h : ModeStep s s') :
    toggles s.log ≤ toggles s'.log := by
  rcases h with ⟨_, h2⟩ | ⟨_, h2⟩ <;> omega

theorem run_times_toggles_le (f : State → Except Fault State)
    (hf : ∀ a b, f a = .ok b → toggles a.log ≤ toggles b.log) (n : Nat) (s s' : State)
    (h : run_times f n s = .ok s') : toggles s.log ≤ toggles s'.log := by
  induction n generalizing s with
  | zero =>
    simp only [run_times] at h
    cases h
    exact Nat.le_refl _
  | succ n ih =>
    rw [run_times] at h
    split at h
    · rename_i s1 h1
      exact Nat.le_trans (hf s s1 h1) (ih s1 h)
    · cases h

theorem pattern_odd_even_untoggled (w : Wire) (fuel : Nat) (s s' : State)
    (h : pattern_odd_even w fuel s = .ok s') (ht : toggles s'.log = toggles s.log) :
    ∃ g1 g2 : List Bool, g1.length = 8 ∧ g2.length = 8
      ∧ s'.log = s.log ++ (even_writes ++ slices_log g1 ++ odd_writes ++ slices_log g2) := by
  have te : ∀ l, toggles (l ++ even_writes) = toggles l :=
    fun l => toggles_append_free l _ (by simp [even_writes])
  have tod : ∀ l, toggles (l ++ odd_writes) = toggles l :=
    fun l => toggles_append_free l _ (by simp [odd_writes])
  unfold pattern_odd_even at h
  rw [phase_even_eq] at h
  simp only at h
  split at h
  · cases h
  · rename_i r s2 h1
    have o1 := delay_outcome w fuel _ _ _ _ h1
    have t1 := o1.toggles_grow
    simp only [te] at t1
    split at h
    · rename_i hr
      cases h
      have := o1.zero_of_toggles (by simp only [te]; exact ht)
      exact absurd this hr
    · rename_i hr
      have hr0 : r = 0 := by simpa using hr
      subst hr0
      rw [phase_odd_eq] at h
      simp only at h
      split at h
      · cases h
      · rename_i r2 s4 h2
        cases h
        have o2 := delay_outcome w fuel _ _ _ _ h2
        have t2 := o2.toggles_grow
        simp only [tod] at t2
        have e1 : toggles s2.log = toggles s.log := by omega
        have hr2 : r2 = 0 := o2.zero_of_toggles (by simp only [tod]; omega)
        subst hr2
        obtain ⟨g1, l1, hl1⟩ := hold_400_zero w fuel _ _ h1
        obtain ⟨g2, l2, hl2⟩ := hold_400_zero w fuel _ _ h2
        refine ⟨g1, g2, l1, l2, ?_⟩
        rw [hl2]
        simp only [hl1]
        simp

theorem pattern_larson_untoggled (w : Wire) (fuel : Nat) (s s' : State)
    (h : pattern_larson w fuel s = .ok s') (ht : toggles s'.log = toggles s.log) :
    ∃ (i : Fin 8) (gs : List Bool), gs.length = 2
      ∧ s'.log = s.log ++ (all_clear_log ++ [Event.outSet i] ++ slices_log gs
          ++ [Event.delay 20]) := by
  unfold pattern_larson at h
  split at h
  · cases h
  · rename_i s1 hf
    obtain ⟨_, hp0, hp8⟩ := larson_frame_leds s s1 hf
    obtain ⟨i, hi⟩ : ∃ i : Fin 8, (i.val : Int) = s.pos :=
      ⟨⟨s.pos.toNat, by omega⟩, by simp only; omega⟩
    have hs1 := larson_frame_eq s i hi
    rw [hf] at hs1
    injection hs1 with hs1
    have tf : toggles s1.log = toggles s.log := (larson_frame_step s s1 hf).2.2.2.2
    split at h
    · cases h
    · rename_i r s2 h1
      have o1 := delay_outcome w fuel _ _ _ _ h1
      have hlog : s'.log = s2.log := by
        split at h <;> cases h <;> rfl
      have hr0 : r = 0 := o1.zero_of_toggles (by rw [← hlog, ht, tf])
      subst hr0
      obtain ⟨gs, l1, hl1⟩ := hold_120_zero w fuel _ _ h1
      refine ⟨i, gs, l1, ?_⟩
      rw [hlog, hl1, hs1]
      simp

theorem odd_even_gaps (g1 g2 : List Bool) (h1 : g1.length = 8) (h2 : g2.length = 8) :
    (∀ g ∈ sample_gaps_from 0 (even_writes ++ slices_log g1 ++ odd_writes ++ slices_log g2),
        g ≤ 50)
      ∧ since_last_sample 0 (even_writes ++ slices_log g1 ++ odd_writes ++ slices_log g2) = 0 := by
  obtain ⟨a1, a2⟩ := slices_gaps 50 (Nat.le_refl _) g1 0 (by omega)
  obtain ⟨b1, b2⟩ := slices_gaps 50 (Nat.le_refl _) g2 0 (by omega)
  have a2' : since_last_sample 0 (slices_log g1) = 0 := by rw [a2]; simp [h1]
  have b2' : since_last_sample 0 (slices_log g2) = 0 := by rw [b2]; simp [h2]
  have we : ∀ a, sample_gaps_from a even_writes = [] ∧ since_last_sample a even_writes = a :=
    fun a => by simp [even_writes, sample_gaps_from, since_last_sample]
  have wo : ∀ a, sample_gaps_from a odd_writes = [] ∧ since_last_sample a odd_writes = a :=
    fun a => by simp [odd_writes, sample_gaps_from, since_last_sample]
  constructor
  · intro g hg
    simp only [sample_gaps_append, since_last_sample_append, (we _).1, (we _).2, (wo _).1,
      (wo _).2, a2', List.nil_append, List.append_nil, List.mem_append] at hg
    rcases hg with hg | hg
    · exact a1 g hg
    · exact b1 g hg
  · simp only [since_last_sample_append, (we _).2, (wo _).2, a2', b2']

theorem larson_gaps (i : Fin 8) (gs : List Bool) (h : gs.length = 2) (a : Nat) (ha : a ≤ 20) :
    (∀ g ∈ sample_gaps_from a (all_clear_log ++ [Event.outSet i] ++ slices_log gs
          ++ [Event.delay 20]), g ≤ 70)
      ∧ since_last_sample a (all_clear_log ++ [Event.outSet i] ++ slices_log gs
          ++ [Event.delay 20]) = 20 := by
  obtain ⟨a1, a2⟩ := slices_gaps 70 (by omega) gs a (by omega)
  have a2' : since_last_sample a (slices_log gs) = 0 := by rw [a2]; simp [h]
  have wc : ∀ b, sample_gaps_from b (all_clear_log ++ [Event.outSet i]) = []
      ∧ since_last_sample b (all_clear_log ++ [Event.outSet i]) = b :=
    fun b => by simp [all_clear_log, sample_gaps_from, since_last_sample]
  constructor
  · intro g hg
    rw [sample_gaps_append, sample_gaps_append, (wc a).1, (wc a).2] at hg
    simp only [List.nil_append, List.mem_append, sample_gaps_from, List.not_mem_nil,
      or_false] at hg
    exact a1 g hg
  · rw [since_last_sample_append, since_last_sample_append, (wc a).2, a2']
    simp [since_last_sample]

theorem odd_even_run_gaps (w : Wire) (fuel : Nat) (n : Nat) (s s' : State)
    (h : run_times (pattern_odd_even w fuel) n s = .ok s')
    (ht : toggles s'.log = toggles s.log) :
    ∃ evs, s'.log = s.log ++ evs ∧ (∀ g ∈ sample_gaps_from 0 evs, g ≤ 50)
      ∧ since_last_sample 0 evs = 0 := by
  induction n generalizing s with
  | zero =>
    simp only [run_times] at h
    cases h
    exact ⟨[], by simp, by simp [sample_gaps_from], rfl⟩
  | succ n ih =>
    rw [run_times] at h
    split at h
    · rename_i s1 h1
      have m1 := (pattern_odd_even_mode w fuel s s1 h1).toggles_le
      have m2 := run_times_toggles_le _
        (fun a b hab => (pattern_odd_even_mode w fuel a b hab).toggles_le) n s1 s' h
      obtain ⟨g1, g2, l1, l2, hlog⟩ := pattern_odd_even_untoggled w fuel s s1 h1 (by omega)
      obtain ⟨evs, he, hg, hsl⟩ := ih s1 h (by omega)
      obtain ⟨c1, c2⟩ := odd_even_gaps g1 g2 l1 l2
      refine ⟨(even_writes ++ slices_log g1 ++ odd_writes ++ slices_log g2) ++ evs,
        by rw [he, hlog, List.append_assoc], ?_, ?_⟩
      · intro g hmem
        rw [sample_gaps_append, c2] at hmem
        rcases List.mem_append.mp hmem with hm | hm
        · exact c1 g hm
        · exact hg g hm
      · rw [since_last_sample_append, c2, hsl]
    · cases h

theorem larson_run_gaps (w : Wire) (fuel : Nat) (n : Nat) (s s' : State)
    (h : run_times (pattern_larson w fuel) n s = .ok s')
    (ht : toggles s'.log = toggles s.log) :
    ∃ evs, s'.log = s.log ++ evs
      ∧ ∀ a, a ≤ 20 → (∀ g ∈ sample_gaps_from a evs, g ≤ 70) ∧ since_last_sample a evs ≤ 20 := by
  induction n generalizing s with
  | zero =>
    simp only [run_times] at h
    cases h
    exact ⟨[], by simp, fun a ha => ⟨by simp [sample_gaps_from], by simpa [since_last_sample]⟩⟩
  | succ n ih =>
    rw [run_times] at h
    split at h
    · rename_i s1 h1
      have m1 := (pattern_larson_mode w fuel s s1 h1).toggles_le
      have m2 := run_times_toggles_le _
        (fun a b hab => (pattern_larson_mode w fuel a b hab).toggles_le) n s1 s' h
      obtain ⟨i, gs, l1, hlog⟩ := pattern_larson_untoggled w fuel s s1 h1 (by omega)
      obtain ⟨evs, he, hg⟩ := ih s1 h (by omega)
      refine ⟨(all_clear_log ++ [Event.outSet i] ++ slices_log gs ++ [Event.delay 20]) ++ evs,
        by rw [he, hlog, List.append_assoc], ?_⟩
      intro a ha
      obtain ⟨c1, c2⟩ := larson_gaps i gs l1 a ha
      obtain ⟨d1, d2⟩ := hg 20 (Nat.le_refl _)
      constructor
      · intro g hmem
        rw [sample_gaps_append, c2] at hmem
        rcases List.mem_append.mp hmem with hm | hm
        · exact c1 g hm
        · exact d1 g hm
      · rw [since_last_sample_append, c2]
        exact d2
    · cases h

/-! ## Claims -/

/-- Claim C1: for every `total_ms ≥ 0`, when the input reads high (deasserted)
at every poll, `delay_with_button_check(total_ms)` returns `0` after exactly
`total_ms` ms, having slept `total_ms / 50` slices of 50 ms (each followed by
one poll) plus the remainder `total_ms % 50`, and leaves `mode`, the LEDs and
the scanner statics unchanged. -/
theorem delay_without_activation (w : Wire) (fuel : Nat) (total_ms : Nat) (s : State)
    (hq : ∀ i, i < total_ms / 50 → w (s.now + 50 * (i + 1)) = true) :
    ∃ s', delay_with_button_check w fuel (total_ms : Int) s = .ok (0, s')
      ∧ s'.now = s.now + total_ms
      ∧ s'.mode = s.mode ∧ s'.leds = s.leds ∧ s'.pos = s.pos ∧ s'.dir = s.dir
      ∧ s'.log = s.log ++ quiet_slices (total_ms / 50)
          ++ (if total_ms % 50 = 0 then [] else [Event.delay (total_ms % 50)]) :=
  ⟨_, delay_quiet w fuel total_ms s hq, rfl, rfl, rfl, rfl, rfl, rfl⟩

/-- Witness of C1: a 120 ms wait on an idle button from the boot state. -/
theorem delay_without_activation_witness :
    (∀ i, i < 120 / 50 → idle ((boot all_off).now + 50 * (i + 1)) = true)
      ∧ ∃ s', delay_with_button_check idle 0 ((120 : Nat) : Int) (boot all_off) = .ok (0, s')
          ∧ s'.now = 120 ∧ s'.mode = 0
          ∧ s'.log = [Event.delay 50, Event.poll, Event.read true,
                      Event.delay 50, Event.poll, Event.read true, Event.delay 20] := by
  refine ⟨fun _ _ => rfl, ?_⟩
  obtain ⟨s', h1, h2, h3, _, _, _, h4⟩ :=
    delay_without_activation idle 0 120 (boot all_off) (fun _ _ => rfl)
  exact ⟨s', h1, by simpa [boot] using h2, by simpa [boot] using h3,
    by simpa [boot, quiet_slices] using h4⟩

/-- Claim C3: `delay_with_button_check` returns `1` exactly when it toggled
`mode`: every call that returns either returns `1` with `mode` equal to the old
`mode` XOR 1 and exactly one toggle logged before the return, or returns `0`
with `mode` unchanged and no toggle logged; and when the input is never stuck
low, enough fuel for the busy-wait makes the call return. -/
theorem delay_returns_one_iff_toggled (w : Wire) (total_ms : Int) (s : State) :
    (∀ fuel r s', delay_with_button_check w fuel total_ms s = .ok (r, s') →
        (r = 1 ∧ s'.mode = Int.xor s.mode 1 ∧ toggles s'.log = toggles s.log + 1)
          ∨ (r = 0 ∧ s'.mode = s.mode ∧ toggles s'.log = toggles s.log))
      ∧ (Releasing w → ∃ F r s', ∀ fuel, F ≤ fuel →
          delay_with_button_check w fuel total_ms s = .ok (r, s')) :=
  ⟨fun fuel r s' h => (delay_outcome w fuel total_ms s s' r h).mode_toggles,
   fun hw => delay_total w hw total_ms s⟩

/-- Witness of C3: the press from 40 ms to 100 ms makes a 400 ms wait return
`1` with `mode` toggled from 0 to 1 and one toggle logged. -/
theorem delay_returns_one_iff_toggled_witness :
    ∃ s', delay_with_button_check press_40_100 100 400 (boot all_off) = .ok (1, s')
      ∧ s'.mode = 1 ∧ toggles s'.log = 1 := by
  have hrun : delay_with_button_check press_40_100 100 400 (boot all_off)
      = .ok (1, final_state (delay_with_button_check press_40_100 100 400 (boot all_off))
          (boot all_off)) := rfl
  rcases (delay_returns_one_iff_toggled press_40_100 400 (boot all_off)).1 100 1 _ hrun with
    ⟨_, h1, h2⟩ | ⟨h0, _, _⟩
  · exact ⟨_, hrun, by rw [h1]; decide, by rw [h2]; decide⟩
  · exact absurd h0 (by decide)

/-- Claim C6: glitch rejection.  For every input that reads low at the first
sample of `button_pressed` and high at the re-sample 30 ms later, the call
returns `0` (after the 30 ms settle), without touching `mode` or the LEDs. -/
theorem button_glitch_rejected (w : Wire) (fuel : Nat) (s : State)
    (h1 : w s.now = false) (h2 : w (s.now + 30) = true) :
    ∃ s', button_pressed w fuel s = .ok (0, s')
      ∧ s'.now = s.now + 30 ∧ s'.mode = s.mode ∧ s'.leds = s.leds
      ∧ s'.log = s.log ++ [Event.poll, Event.read false, Event.delay 30, Event.read true] :=
  ⟨_, button_pressed_glitch w fuel s h1 h2, rfl, rfl, rfl, rfl⟩

/-- Witness of C6: an input held low for 10 ms from the first sample and then
released does not count as a press. -/
theorem button_glitch_rejected_witness :
    pressed_between 0 10 (boot all_off).now = false
      ∧ pressed_between 0 10 ((boot all_off).now + 30) = true
      ∧ ∃ s', button_pressed (pressed_between 0 10) 0 (boot all_off) = .ok (0, s')
          ∧ s'.now = 30 := by
  refine ⟨by decide, by decide, ?_⟩
  obtain ⟨s', h1, h2, _⟩ :=
    button_glitch_rejected (pressed_between 0 10) 0 (boot all_off) (by decide) (by decide)
  exact ⟨s', h1, by simpa [boot] using h2⟩

/-- Counterexample to C7 as stated: an input that is low at the first sample
(clock 0) and at every instant of the 30 ms that follow it, and high from
instant 30 on, was held for 30 ms and then released, yet `button_pressed`
finds it high at the re-sample taken at 30 ms and returns `0` there. -/
theorem button_press_of_exactly_30ms_rejected :
    observe (button_pressed (pressed_between 0 30) 100 (boot all_off)) = some (0, 30, 1)
      ∧ (boot all_off).now = 0
      ∧ (∀ t, t < 30 → pressed_between 0 30 t = false)
      ∧ pressed_between 0 30 30 = true := by
  decide

/-- Claim C7 (amended): confirmed press.  For every input that reads low at
every instant from the first sample up to and including the re-sample 30 ms
later (so held for more than 30 ms) and is first high again at instant `r`,
`button_pressed` (with fuel for the busy-wait) returns `1` at `r + 30`; and
with any fuel it never returns anything else: whenever it returns, it returns
`1` no earlier than `r + 30`. -/
theorem button_press_confirmed (w : Wire) (fuel : Nat) (s : State) (r : Nat)
    (hheld : ∀ t, s.now ≤ t → t < r → w t = false)
    (hlen : s.now + 30 < r)
    (hrel : w r = true)
    (hf : r - (s.now + 30) ≤ fuel) :
    (∃ s', button_pressed w fuel s = .ok (1, s')
        ∧ s'.now = r + 30
        ∧ s'.log = s.log ++ [Event.poll, Event.read false, Event.delay 30, Event.read false]
            ++ spin_log (r - (s.now + 30)) ++ [Event.delay 30])
      ∧ (∀ fuel' b s'', button_pressed w fuel' s = .ok (b, s'') → b = 1 ∧ r + 30 ≤ s''.now) := by
  have h1 : w s.now = false := hheld _ (Nat.le_refl _) (by omega)
  have hlow : ∀ j, j < r - (s.now + 30) → w (s.now + 30 + j) = false :=
    fun j hj => hheld _ (by omega) (by omega)
  have hrel' : w (s.now + 30 + (r - (s.now + 30))) = true := by
    rw [← hrel]; congr 1; omega
  have hgen : ∀ f, r - (s.now + 30) ≤ f → button_pressed w f s
      = .ok (1, { s with now := s.now + 30 + (r - (s.now + 30)) + 30,
                         log := s.log ++ [Event.poll, Event.read false, Event.delay 30,
                                          Event.read false]
                           ++ spin_log (r - (s.now + 30)) ++ [Event.delay 30] }) :=
    fun f hle => button_pressed_confirmed w f s _ h1 hlow hrel' (by omega) hle
  refine ⟨⟨_, hgen fuel hf, by simp only; omega, rfl⟩, ?_⟩
  intro fuel' b s'' hb
  by_cases hle : r - (s.now + 30) ≤ fuel'
  · rw [hgen fuel' hle] at hb
    injection hb with hb
    injection hb with hb1 hb2
    refine ⟨hb1.symm, ?_⟩
    rw [← hb2]; simp only; omega
  · exfalso
    have h30 : w (s.now + 30) = false := hheld _ (by omega) hlen
    have hshort := wait_release_short w fuel'
      (read_button w (MXC_Delay_MSEC 30 (read_button w (emit Event.poll s)).2)).2
      (fun j hj => hheld _ (by simp [read_button, emit, MXC_Delay_MSEC]; omega)
        (by simp [read_button, emit, MXC_Delay_MSEC]; omega))
    simp only [button_pressed, read_button, emit, MXC_Delay_MSEC, h1, h30, Bool.not_false,
      if_true] at hb hshort
    rw [hshort] at hb
    cases hb

/-- Witness of C7 (amended): an input held low for 45 ms from the first sample makes
`button_pressed` return `1` at 75 ms. -/
theorem button_press_confirmed_witness :
    (∀ t, (boot all_off).now ≤ t → t < 45 → pressed_between 0 45 t = false)
      ∧ pressed_between 0 45 45 = true
      ∧ ∃ s', button_pressed (pressed_between 0 45) 15 (boot all_off) = .ok (1, s')
          ∧ s'.now = 45 + 30 := by
  have hheld : ∀ t, (boot all_off).now ≤ t → t < 45 → pressed_between 0 45 t = false := by
    intro t _ ht
    simp [pressed_between, ht]
  refine ⟨hheld, by decide, ?_⟩
  obtain ⟨⟨s', h1, h2, _⟩, _⟩ :=
    button_press_confirmed (pressed_between 0 45) 15 (boot all_off) 45 hheld (by decide)
      (by decide) (by decide)
  exact ⟨s', h1, h2⟩

/-- Claim C9: selector invariant.  In every state reachable from the initial
state by controller-loop ticks, under any input and any fuel, `mode` is 0 or
1; a tick either leaves `mode` alone (no toggle logged) or applies `mode ^= 1`
exactly once; and on `{0, 1}` the toggle stays in `{0, 1}` and is an
involution. -/
theorem selector_invariant (w : Wire) (s : State) (h : Reachable w s) :
    (s.mode = 0 ∨ s.mode = 1)
      ∧ (∀ fuel s', main_tick w fuel s = .ok s' →
          (s'.mode = s.mode ∧ toggles s'.log = toggles s.log)
            ∨ (s'.mode = Int.xor s.mode 1 ∧ toggles s'.log = toggles s.log + 1))
      ∧ (∀ m : Int, m = 0 ∨ m = 1 →
          (Int.xor m 1 = 0 ∨ Int.xor m 1 = 1) ∧ Int.xor (Int.xor m 1) 1 = m) :=
  ⟨reachable_mode w s h, fun fuel s' ht => main_tick_mode w fuel s s' ht, xor_one_facts⟩

/-- Witness of C9: the state after one tick in which the button was pressed is
reachable and has `mode` in `{0, 1}`. -/
theorem selector_invariant_witness :
    Reachable press_40_100
        (end_state (main_tick press_40_100 100 (main_init all_off)) (main_init all_off))
      ∧ ((end_state (main_tick press_40_100 100 (main_init all_off)) (main_init all_off)).mode = 0
        ∨ (end_state (main_tick press_40_100 100 (main_init all_off)) (main_init all_off)).mode
            = 1) :=
  have hr : Reachable press_40_100
      (end_state (main_tick press_40_100 100 (main_init all_off)) (main_init all_off)) :=
    Reachable.tick 100 (main_init all_off) _ (Reachable.init all_off) rfl
  ⟨hr, (selector_invariant press_40_100 _ hr).1⟩

/-- Claim C10: if the hold of a `pattern_larson` invocation is interrupted by
an activation (its `delay_with_button_check(120)` returns 1), the invocation
returns at once, in the very state the hold returned in, with `pos` and `dir`
as they were before the invocation. -/
theorem larson_interrupted_keeps_state (w : Wire) (fuel : Nat) (s s1 s2 : State)
    (hf : larson_frame s = .ok s1)
    (hi : delay_with_button_check w fuel 120 s1 = .ok (1, s2)) :
    pattern_larson w fuel s = .ok s2 ∧ s2.pos = s.pos ∧ s2.dir = s.dir := by
  obtain ⟨_, fp, fd, _, _⟩ := larson_frame_step s s1 hf
  obtain ⟨op, od⟩ := (delay_outcome w fuel _ _ _ _ hi).scanner
  refine ⟨?_, by rw [op, fp], by rw [od, fd]⟩
  simp [pattern_larson, hf, hi]

/-- Witness of C10: a scanner invocation at `(pos, dir) = (3, -1)` interrupted
by the press from 40 ms to 100 ms returns with `(3, -1)`. -/
theorem larson_interrupted_keeps_state_witness :
    ∃ s2, pattern_larson press_40_100 100 { main_init all_off with mode := 1, pos := 3, dir := -1 }
        = .ok s2
      ∧ s2.pos = 3 ∧ s2.dir = -1 ∧ s2.now = 330 := by
  have h := larson_interrupted_keeps_state press_40_100 100
    { main_init all_off with mode := 1, pos := 3, dir := -1 }
    (end_state (larson_frame { main_init all_off with mode := 1, pos := 3, dir := -1 })
      (main_init all_off))
    (final_state (delay_with_button_check press_40_100 100 120
      (end_state (larson_frame { main_init all_off with mode := 1, pos := 3, dir := -1 })
        (main_init all_off))) (main_init all_off))
    rfl rfl
  exact ⟨_, h.1, h.2.1, h.2.2, by decide⟩

/-- Claim C11: if the first 400 ms hold of a `pattern_odd_even` invocation is
interrupted by an activation, the invocation returns in the very state the
hold returned in (nothing is written, slept or polled afterwards), and after
frame A no line was switched on: frame B is never rendered. -/
theorem odd_even_interrupted_returns_at_once (w : Wire) (fuel : Nat) (s sa s1 : State)
    (ha : phase_even s = .ok sa)
    (hact : delay_with_button_check w fuel 400 sa = .ok (1, s1)) :
    pattern_odd_even w fuel s = .ok s1
      ∧ (∃ evs, s1.log = s.log ++ even_writes ++ evs ∧ ∀ i, Event.outSet i ∉ evs)
      ∧ (∀ i, s1.leds i = false) := by
  have hsa := phase_even_eq s
  rw [ha] at hsa
  have hsa' : sa = { s with leds := frame_even, log := s.log ++ even_writes } := by
    injection hsa
  have ho := delay_outcome w fuel _ _ _ _ hact
  refine ⟨?_, ?_, ho.leds_off⟩
  · simp only [pattern_odd_even, ha, hact]
    simp
  · obtain ⟨evs, he, hn⟩ := ho.no_outSet
    exact ⟨evs, by rw [he, hsa'], hn⟩

/-- Witness of C11: the press from 40 ms to 100 ms interrupts the first hold of
the first invocation after `setup_leds`, which returns at 330 ms. -/
theorem odd_even_interrupted_returns_at_once_witness :
    ∃ s1, pattern_odd_even press_40_100 100 (main_init all_off) = .ok s1
      ∧ s1.now = 330 ∧ ∀ i, s1.leds i = false := by
  obtain ⟨h1, _, h3⟩ :=
    odd_even_interrupted_returns_at_once press_40_100 100 (main_init all_off)
      (end_state (phase_even (main_init all_off)) (main_init all_off))
      (final_state (delay_with_button_check press_40_100 100 400
        (end_state (phase_even (main_init all_off)) (main_init all_off))) (main_init all_off))
      rfl rfl
  exact ⟨_, h1, by decide, h3⟩

/-- Claim C12: scanner invariant and index safety.  In every state reachable
from a state with `(pos, dir) = (0, +1)` by pattern invocations, interrupted
or not, `pos` lies in `[0, 7]` and `dir` is `-1` or `+1`; so `led_cfgs[pos]` is
inside the table and `pattern_larson` never faults on the index. -/
theorem scanner_index_safe (w : Wire) (s : State) (h : ScanReachable w s) :
    0 ≤ s.pos ∧ s.pos ≤ 7 ∧ (s.dir = -1 ∨ s.dir = 1)
      ∧ (∃ i : Fin 8, led_cfgs s.pos = .ok i ∧ (i.val : Int) = s.pos)
      ∧ (∀ fuel, pattern_larson w fuel s ≠ .error Fault.index) := by
  obtain ⟨h0, h7, hd, _, _⟩ := scan_reachable_inv w s h
  obtain ⟨i, hi⟩ : ∃ i : Fin 8, (i.val : Int) = s.pos :=
    ⟨⟨s.pos.toNat, by omega⟩, by simp only; omega⟩
  have hc := led_cfgs_ok i
  rw [hi] at hc
  refine ⟨h0, h7, hd, ⟨i, hc, hi⟩, ?_⟩
  intro fuel hfault
  unfold pattern_larson at hfault
  rw [larson_frame_eq s i hi] at hfault
  simp only at hfault
  split at hfault
  · rename_i e he
    have := delay_fault w fuel _ _ e he
    rw [this] at hfault
    cases hfault
  · split at hfault <;> cases hfault

/-- Witness of C12: the state after two uninterrupted scanner invocations from
the state after `setup_leds` is reachable, with `pos` inside the table. -/
theorem scanner_index_safe_witness :
    ∃ s, run_times (pattern_larson idle 0) 2 (main_init all_off) = .ok s
      ∧ ScanReachable idle s ∧ 0 ≤ s.pos ∧ s.pos ≤ 7 :=
  have hr : ScanReachable idle
      (end_state (run_times (pattern_larson idle 0) 2 (main_init all_off)) (main_init all_off)) :=
    ScanReachable.larson 0
      (end_state (pattern_larson idle 0 (main_init all_off)) (main_init all_off)) _
      (ScanReachable.larson 0 (main_init all_off) _
        (ScanReachable.start (main_init all_off) rfl rfl) rfl) rfl
  ⟨_, rfl, hr, (scanner_index_safe idle _ hr).1, (scanner_index_safe idle _ hr).2.1⟩

/-- Counterexample to C13 as stated: a scanner invocation at `pos = 3`
interrupted by the press from 40 ms to 100 ms (one toggle logged, `pos` still
3) returns with line 3 off. -/
theorem larson_interrupted_frame_not_kept :
    observe_tick (pattern_larson press_40_100 100 scanner_at_3) = some (false, 3, 1)
      ∧ scanner_at_3.pos = 3 ∧ toggles scanner_at_3.log = 0 := by
  decide

/-- Claim C13 (amended): when a `pattern_larson` invocation is interrupted by
an activation, the frame it lit (only line `pos` on) is displayed during the
hold, and `pattern_larson` itself does no cleanup after the hold returns; but
the hold has already cleared the bank in its activation branch, so every
line, line `pos` included, is off when the invocation returns. -/
theorem larson_interrupted_bank_cleared (w : Wire) (fuel : Nat) (s s1 s2 : State)
    (hf : larson_frame s = .ok s1)
    (hi : delay_with_button_check w fuel 120 s1 = .ok (1, s2)) :
    s1.leds = one_hot s.pos
      ∧ pattern_larson w fuel s = .ok s2
      ∧ (∀ i, s2.leds i = false) := by
  refine ⟨(larson_frame_leds s s1 hf).1, ?_, (delay_outcome w fuel _ _ _ _ hi).leds_off⟩
  simp [pattern_larson, hf, hi]

/-- Witness of C13 (amended): the interrupted invocation at `pos = 3`. -/
theorem larson_interrupted_bank_cleared_witness :
    ∃ s2, pattern_larson press_40_100 100 scanner_at_3 = .ok s2 ∧ ∀ i, s2.leds i = false := by
  have h := larson_interrupted_bank_cleared press_40_100 100 scanner_at_3
    (end_state (larson_frame scanner_at_3) scanner_at_3)
    (final_state (delay_with_button_check press_40_100 100 120
      (end_state (larson_frame scanner_at_3) scanner_at_3)) scanner_at_3)
    rfl rfl
  exact ⟨_, h.2.1, h.2.2⟩

/-- Counterexample to C14 as stated: two consecutive scanner invocations on a
button that is never pressed, from the boot state, report no activation (no
toggle logged) and sample the input after 50, 50, 70 and 50 ms: the third
read comes 70 ms after the second, more than one slice width. -/
theorem sample_latency_not_one_slice :
    observe_run (run_times (pattern_larson idle 0) 2 (boot all_off)) = some ([50, 50, 70, 50], 0)
      ∧ (boot all_off).log = []
      ∧ 50 < 70 := by
  decide

/-- Claim C14 (amended): worst-case input latency in runs that report no
activation (no toggle logged).  In any run of repeated `pattern_odd_even`
invocations (400 ms holds) the time between two consecutive reads of the input
never exceeds 50 ms; in any run of repeated `pattern_larson` invocations
(120 ms holds) it never exceeds 70 ms, the unpolled 20 ms remainder of a hold
adding to the first slice of the next one. -/
theorem sample_latency_bound (w : Wire) (fuel : Nat) (n : Nat) (s s' : State) :
    (run_times (pattern_odd_even w fuel) n s = .ok s' → toggles s'.log = toggles s.log →
        ∃ evs, s'.log = s.log ++ evs ∧ ∀ g ∈ sample_gaps evs, g ≤ 50)
      ∧ (run_times (pattern_larson w fuel) n s = .ok s' → toggles s'.log = toggles s.log →
          ∃ evs, s'.log = s.log ++ evs ∧ ∀ g ∈ sample_gaps evs, g ≤ 70) := by
  constructor
  · intro h ht
    obtain ⟨evs, he, hg, _⟩ := odd_even_run_gaps w fuel n s s' h ht
    exact ⟨evs, he, hg⟩
  · intro h ht
    obtain ⟨evs, he, hg⟩ := larson_run_gaps w fuel n s s' h ht
    exact ⟨evs, he, (hg 0 (Nat.zero_le _)).1⟩

/-- Witness of C14 (amended): two scanner invocations on a button that is never
pressed, from the boot state. -/
theorem sample_latency_bound_witness :
    ∃ s' evs, run_times (pattern_larson idle 0) 2 (boot all_off) = .ok s'
      ∧ toggles s'.log = toggles (boot all_off).log
      ∧ s'.log = (boot all_off).log ++ evs ∧ ∀ g ∈ sample_gaps evs, g ≤ 70 := by
  have hrun : run_times (pattern_larson idle 0) 2 (boot all_off)
      = .ok (end_state (run_times (pattern_larson idle 0) 2 (boot all_off)) (boot all_off)) :=
    rfl
  have ht : toggles (end_state (run_times (pattern_larson idle 0) 2 (boot all_off))
      (boot all_off)).log = toggles (boot all_off).log := by decide
  obtain ⟨evs, he, hg⟩ := (sample_latency_bound idle 0 2 (boot all_off) _).2 hrun ht
  exact ⟨_, evs, hrun, ht, he, hg⟩

/-- Claim C15: for every `total_ms ≥ 0`, a call of `delay_with_button_check`
that is not interrupted (returns 0) enters `button_pressed` exactly
`total_ms / 50` times; and for `total_ms < 50` the call, whatever the input
does, returns 0 after `total_ms` ms without any poll or read of the input,
leaving `mode` unchanged. -/
theorem delay_poll_count (w : Wire) (fuel : Nat) (total_ms : Nat) (s : State) :
    (∀ s', delay_with_button_check w fuel (total_ms : Int) s = .ok (0, s') →
        polls s'.log = polls s.log + total_ms / 50)
      ∧ (total_ms < 50 →
          ∃ s', delay_with_button_check w fuel (total_ms : Int) s = .ok (0, s')
            ∧ s'.mode = s.mode ∧ s'.now = s.now + total_ms
            ∧ s'.log = s.log ++ remainder_log total_ms) := by
  constructor
  · intro s' h
    obtain ⟨gs, hlen, hs'⟩ := delay_zero w fuel total_ms s s' h
    rw [hs']
    simp only [polls_append, polls_slices, polls_remainder, hlen]
    omega
  · intro hlt
    have h0 : total_ms / 50 = 0 := by omega
    have hq := delay_quiet w fuel total_ms s (fun i hi => by omega)
    rw [h0] at hq
    exact ⟨_, hq, rfl, rfl, by simp [quiet_slices]⟩

/-- Witness of C15: a 49 ms wait during which the button is held down returns 0
at 49 ms without a poll; a 120 ms wait on an idle button polls twice. -/
theorem delay_poll_count_witness :
    (∃ s', delay_with_button_check stuck_low 0 ((49 : Nat) : Int) (boot all_off) = .ok (0, s')
        ∧ s'.mode = 0 ∧ s'.now = 49 ∧ s'.log = [Event.delay 49])
      ∧ ∃ s', delay_with_button_check idle 0 ((120 : Nat) : Int) (boot all_off) = .ok (0, s')
          ∧ polls s'.log = 2 := by
  constructor
  · obtain ⟨s', h1, h2, h3, h4⟩ :=
      (delay_poll_count stuck_low 0 49 (boot all_off)).2 (by decide)
    exact ⟨s', h1, by rw [h2]; rfl, by rw [h3]; rfl, by rw [h4]; rfl⟩
  · have hrun : delay_with_button_check idle 0 ((120 : Nat) : Int) (boot all_off)
        = .ok (0, final_state (delay_with_button_check idle 0 ((120 : Nat) : Int) (boot all_off))
            (boot all_off)) := rfl
    have := (delay_poll_count idle 0 120 (boot all_off)).1 _ hrun
    exact ⟨_, hrun, by rw [this]; rfl⟩

/-- Claim C16: scanner state carries over a pattern switch.  An invocation of
`pattern_odd_even`, interrupted or not, never changes `(pos, dir)`; so after
any number of `pattern_odd_even` invocations from a state with scanner state
`(p, d)`, the next invocation of `pattern_larson` (the one `main` dispatches to
once `mode` is not 0) renders the frame with only line `p` lit and holds it:
whenever it returns, its log starts with the clear of the bank, the switch-on
of line `p` and the first 50 ms slice, no other line is switched on, and the
scanner state is `(p, d)` (interrupted) or its successor (not interrupted),
never a reset to `(0, +1)`; and when the input reads high at its two polls it
returns having shown exactly that frame for 120 ms and moved to `p + d`. -/
theorem scanner_state_carries_over (w : Wire) (fuel : Nat) (n : Nat) (s s' : State)
    (i : Fin 8) (hi : (i.val : Int) = s.pos)
    (h : run_times (pattern_odd_even w fuel) n s = .ok s') :
    (∀ fuel' a b, pattern_odd_even w fuel' a = .ok b → b.pos = a.pos ∧ b.dir = a.dir)
      ∧ s'.pos = s.pos ∧ s'.dir = s.dir
      ∧ (∀ fuel', s'.mode ≠ 0 → main_tick w fuel' s' = pattern_larson w fuel' s')
      ∧ (∀ fuel', pattern_larson w fuel' s'
          = match delay_with_button_check w fuel' 120
              { s' with leds := one_hot s.pos,
                        log := s'.log ++ all_clear_log ++ [Event.outSet i] } with
            | .error e => .error e
            | .ok (r, s2) => if r ≠ 0 then .ok s2 else .ok (larson_advance s2))
      ∧ (∀ fuel' s2, pattern_larson w fuel' s' = .ok s2 →
          (∃ evs, s2.log = s'.log ++ all_clear_log ++ [Event.outSet i] ++ [Event.delay 50] ++ evs
              ∧ ∀ j, Event.outSet j ∉ evs)
            ∧ ((s2.pos = s.pos ∧ s2.dir = s.dir)
              ∨ (s2.pos = (larson_advance s).pos ∧ s2.dir = (larson_advance s).dir)))
      ∧ (w (s'.now + 50) = true ∧ w (s'.now + 100) = true →
          ∀ fuel', ∃ s2, pattern_larson w fuel' s' = .ok s2
            ∧ s2.log = s'.log ++ larson_log i
            ∧ timeline s'.leds (larson_log i) = [(one_hot s.pos, 120)]
            ∧ s2.leds = one_hot s.pos
            ∧ s2.pos = s.pos + s.dir) := by
  have hkeep : s'.pos = s.pos ∧ s'.dir = s.dir := by
    induction n generalizing s with
    | zero =>
      simp only [run_times] at h
      cases h
      exact ⟨rfl, rfl⟩
    | succ n ih =>
      rw [run_times] at h
      split at h
      · rename_i s1 h1
        obtain ⟨p1, d1⟩ := pattern_odd_even_scanner w fuel s s1 h1
        obtain ⟨p2, d2⟩ := ih s1 (by rw [p1]; exact hi) h
        exact ⟨p2.trans p1, d2.trans d1⟩
      · cases h
  have hi' : (i.val : Int) = s'.pos := by rw [hi, hkeep.1]
  have hframe : larson_frame s'
      = .ok { s' with leds := one_hot s.pos,
                      log := s'.log ++ all_clear_log ++ [Event.outSet i] } := by
    rw [larson_frame_eq s' i hi', hkeep.1]
  have hunfold : ∀ fuel', pattern_larson w fuel' s'
      = match delay_with_button_check w fuel' 120
          { s' with leds := one_hot s.pos,
                    log := s'.log ++ all_clear_log ++ [Event.outSet i] } with
        | .error e => .error e
        | .ok (r, s2) => if r ≠ 0 then .ok s2 else .ok (larson_advance s2) := by
    intro fuel'
    rw [pattern_larson, hframe]
  refine ⟨fun fuel' a b hab => pattern_odd_even_scanner w fuel' a b hab, hkeep.1, hkeep.2,
    ?_, hunfold, ?_, ?_⟩
  · intro fuel' hm
    simp [main_tick, hm]
  · intro fuel' s2 h2
    constructor
    · rw [hunfold fuel'] at h2
      split at h2
      · cases h2
      · rename_i r s3 h3
        obtain ⟨evs, he, hn⟩ := (hold_120_first_slice w fuel' _ _ _ h3).no_outSet
        refine ⟨evs, ?_, hn⟩
        have hlog : s2.log = s3.log := by
          split at h2 <;> cases h2 <;> rfl
        rw [hlog, he]
        simp [MXC_Delay_MSEC]
    · rcases pattern_larson_scanner w fuel' s' s2 h2 with ⟨hp, hd⟩ | ⟨hp, hd⟩
      · exact Or.inl ⟨hp.trans hkeep.1, hd.trans hkeep.2⟩
      · right
        rw [hp, hd]
        simp only [larson_advance, hkeep.1, hkeep.2, and_self]
  · intro hq fuel'
    have hstep := pattern_larson_quiet w fuel' s' i hi' hq
    refine ⟨_, hstep, rfl, ?_, ?_, ?_⟩
    · have := timeline_larson s'.leds 0 i []
      rw [List.append_nil] at this
      rw [timeline, this, hi]
      simp [timeline_from]
    · simp [larson_advance, hkeep.1]
    · simp [larson_advance, hkeep.1, hkeep.2]

/-- Witness of C16: one `pattern_odd_even` invocation started with the scanner
at `(3, -1)` is interrupted by the press from 40 ms to 100 ms and sets
`mode = 1`; the `pattern_larson` invocation that follows lights line 3 and
moves on to position 2. -/
theorem scanner_state_carries_over_witness :
    ∃ s' s2, run_times (pattern_odd_even press_40_100 100) 1 { scanner_at_3 with mode := 0 }
        = .ok s'
      ∧ s'.mode = 1 ∧ s'.pos = 3 ∧ s'.dir = -1
      ∧ main_tick press_40_100 100 s' = .ok s2
      ∧ s2.leds = one_hot 3 ∧ s2.pos = 2 := by
  have hrun : run_times (pattern_odd_even press_40_100 100) 1 { scanner_at_3 with mode := 0 }
      = .ok (end_state (run_times (pattern_odd_even press_40_100 100) 1
          { scanner_at_3 with mode := 0 }) scanner_at_3) := rfl
  obtain ⟨_, h1, h2, h3, _, _, h4⟩ :=
    scanner_state_carries_over press_40_100 100 1 { scanner_at_3 with mode := 0 }
      (end_state (run_times (pattern_odd_even press_40_100 100) 1
        { scanner_at_3 with mode := 0 }) scanner_at_3)
      3 rfl hrun
  have hm : (end_state (run_times (pattern_odd_even press_40_100 100) 1
      { scanner_at_3 with mode := 0 }) scanner_at_3).mode = 1 := by decide
  obtain ⟨s2, h5, _, _, h6, h7⟩ := h4 ⟨by decide, by decide⟩ 100
  have htick := h3 100 (by rw [hm]; decide)
  exact ⟨end_state (run_times (pattern_odd_even press_40_100 100) 1
      { scanner_at_3 with mode := 0 }) scanner_at_3, s2, hrun, hm, h1, h2,
    htick.trans h5, h6, h7⟩

/-- Claim C17: termination of `button_pressed`.  If the input reads high at
some instant at or after the confirming re-sample (30 ms after the call), then
with enough fuel for the busy-wait the call returns; if the input is low at the
first sample and stays low for ever, the call never returns, whatever the
fuel. -/
theorem button_pressed_termination (w : Wire) (s : State) :
    ((∃ t, s.now + 30 ≤ t ∧ w t = true) →
        ∃ F b s', ∀ fuel, F ≤ fuel → button_pressed w fuel s = .ok (b, s'))
      ∧ ((∀ t, s.now ≤ t → w t = false) →
          ∀ fuel, button_pressed w fuel s = .error Fault.spinning) :=
  ⟨button_pressed_returns w s, fun h fuel => button_pressed_stuck w fuel s h⟩

/-- Witness of C17: a 45 ms press lets the call return; a button stuck low
keeps it in the busy-wait. -/
theorem button_pressed_termination_witness :
    (∃ F b s', ∀ fuel, F ≤ fuel →
        button_pressed (pressed_between 0 45) fuel (boot all_off) = .ok (b, s'))
      ∧ ∀ fuel, button_pressed stuck_low fuel (boot all_off) = .error Fault.spinning :=
  ⟨(button_pressed_termination (pressed_between 0 45) (boot all_off)).1
      ⟨45, by decide, by decide⟩,
   (button_pressed_termination stuck_low (boot all_off)).2 (fun _ _ => rfl)⟩

/-- Claim C18: one invocation of `pattern_odd_even` or `pattern_larson` (one
controller-loop tick) toggles `mode` at most once under every input: on
return either `mode` is as before and no toggle was logged, or `mode` is the
old `mode` XOR 1 and exactly one toggle was logged. -/
theorem tick_toggles_at_most_once (w : Wire) (fuel : Nat) (s s' : State) :
    (pattern_odd_even w fuel s = .ok s' →
        (s'.mode = s.mode ∧ toggles s'.log = toggles s.log)
          ∨ (s'.mode = Int.xor s.mode 1 ∧ toggles s'.log = toggles s.log + 1))
      ∧ (pattern_larson w fuel s = .ok s' →
          (s'.mode = s.mode ∧ toggles s'.log = toggles s.log)
            ∨ (s'.mode = Int.xor s.mode 1 ∧ toggles s'.log = toggles s.log + 1))
      ∧ (main_tick w fuel s = .ok s' →
          (s'.mode = s.mode ∧ toggles s'.log = toggles s.log)
            ∨ (s'.mode = Int.xor s.mode 1 ∧ toggles s'.log = toggles s.log + 1)) :=
  ⟨pattern_odd_even_mode w fuel s s', pattern_larson_mode w fuel s s', main_tick_mode w fuel s s'⟩

/-- Witness of C18: the tick interrupted by the press from 40 ms to 100 ms
toggles `mode` from 0 to 1 with one toggle logged. -/
theorem tick_toggles_at_most_once_witness :
    ∃ s', pattern_odd_even press_40_100 100 (main_init all_off) = .ok s'
      ∧ s'.mode = 1 ∧ toggles s'.log = 1 := by
  have hrun : pattern_odd_even press_40_100 100 (main_init all_off)
      = .ok (end_state (pattern_odd_even press_40_100 100 (main_init all_off))
          (main_init all_off)) := rfl
  rcases (tick_toggles_at_most_once press_40_100 100 (main_init all_off) _).1 hrun with
    ⟨_, ht⟩ | ⟨hm, ht⟩
  · exact absurd ht (by decide)
  · exact ⟨_, hrun, by rw [hm]; decide, by rw [ht]; decide⟩

/-- Claim C19: time accounting with rejected glitches.  For every
`total_ms ≥ 0`, a call of `delay_with_button_check` that returns 0 has run
`total_ms / 50` slices, each with a poll that either read the input high at
once or read it low and then high after the 30 ms settle; with `g` polls of
the second kind the call consumes exactly `total_ms + 30 * g` ms, so never less
than `total_ms`, and exactly `total_ms` only when `g = 0`. -/
theorem delay_time_with_glitches (w : Wire) (fuel : Nat) (total_ms : Nat) (s s' : State)
    (h : delay_with_button_check w fuel (total_ms : Int) s = .ok (0, s')) :
    ∃ gs : List Bool, gs.length = total_ms / 50
      ∧ s'.log = s.log ++ slices_log gs ++ remainder_log total_ms
      ∧ s'.now = s.now + total_ms + 30 * gs.count true
      ∧ s.now + total_ms ≤ s'.now
      ∧ (s'.now = s.now + total_ms ↔ gs.count true = 0) := by
  obtain ⟨gs, hlen, hs'⟩ := delay_zero w fuel total_ms s s' h
  refine ⟨gs, hlen, by rw [hs'], by rw [hs'], by rw [hs']; simp only; omega, ?_⟩
  rw [hs']
  simp only
  omega

/-- Witness of C19: a 10 ms glitch (low from 45 ms to 55 ms) during a 120 ms
wait is rejected by the first poll and the call returns 0 at 150 ms. -/
theorem delay_time_with_glitches_witness :
    ∃ s' gs, delay_with_button_check (pressed_between 45 55) 0 ((120 : Nat) : Int) (boot all_off)
        = .ok (0, s')
      ∧ s'.log = slices_log gs ++ [Event.delay 20]
      ∧ gs = [true, false] ∧ s'.now = 120 + 30 * 1 := by
  have hrun : delay_with_button_check (pressed_between 45 55) 0 ((120 : Nat) : Int) (boot all_off)
      = .ok (0, final_state (delay_with_button_check (pressed_between 45 55) 0
          ((120 : Nat) : Int) (boot all_off)) (boot all_off)) := rfl
  obtain ⟨gs, hlen, hlog, hnow, _, _⟩ :=
    delay_time_with_glitches (pressed_between 45 55) 0 120 (boot all_off) _ hrun
  have hgs : gs = [true, false] := by
    match gs, hlen, hlog with
    | [a, b], _, hlog =>
      have h2 : (final_state (delay_with_button_check (pressed_between 45 55) 0
          ((120 : Nat) : Int) (boot all_off)) (boot all_off)).log
          = slices_log [true, false] ++ [Event.delay 20] := by decide
      rw [h2] at hlog
      cases a <;> cases b <;> simp [boot, slices_log, slice_log, remainder_log] at hlog ⊢
  refine ⟨_, gs, hrun, ?_, hgs, ?_⟩
  · rw [hlog]; simp [boot, remainder_log]
  · rw [hnow, hgs]; rfl

end LedActivity
